import Mathlib

/-
Verification of the validation-strategy core of the data-validation framework
(src/validation/strategies.py, src/validation/validator.py, src/core/exceptions.py).

The pandas DataFrames exchanged by the strategies are embedded as columnar
tables over exact rationals: a float value of the source becomes a `Rat`,
a string an ordinary `String`, a timestamp a wall-clock second count `Int`
together with a column-level timezone offset, and a missing value (NaN/NaT)
the constructor `Value.null`.  Python exceptions (KeyError, TypeError,
ValueError, NameError, ...) become `Except` errors.  Row comparison is
positional, mirroring pandas alignment of two default RangeIndex frames.
-/

unseal Rat.mul Rat.inv Rat.add Rat.sub

namespace DataValidation

/-- Absolute value on rationals, written as an executable definition so that
closed instances reduce; it agrees with `|q|` (see `qabs_eq_abs`). -/
def qabs (q : ℚ) : ℚ := if q < 0 then -q else q

theorem qabs_eq_abs (q : ℚ) : qabs q = |q| := by
  unfold qabs
  rcases lt_trichotomy q 0 with h | h | h
  · simp [h, abs_of_neg h]
  · simp [h]
  · simp [not_lt.mpr h.le, abs_of_pos h]

/-- One cell of a pandas column: a numeric value (floats idealized as exact
rationals), a string, a timestamp (wall-clock seconds), or a missing value
(NaN / NaT / None). -/
inductive Value where
  | num (q : ℚ)
  | str (s : String)
  | dt (wall : Int)
  | null
deriving DecidableEq, Repr

/-- The pandas dtype of a column, as tested by the `pd.api.types` predicates in
strategies.py: `numeric` (is_numeric_dtype), `object` (is_object_dtype /
is_string_dtype), or `datetime` with an optional column-level timezone offset
in seconds (is_datetime64_any_dtype; `none` = tz-naive). -/
inductive DType where
  | numeric
  | object
  | datetime (tzOffset : Option Int)
deriving DecidableEq, Repr

/-- One named pandas column: its dtype and its cells in row order. -/
structure Column where
  dtype : DType
  vals : List Value
deriving DecidableEq, Repr

/-- A pandas DataFrame with a default RangeIndex: a row count and an ordered
list of named columns.  The spec's Dataset invariant gives every column
`nrows` cells and pairwise distinct names; theorems that need distinctness
assume `colNames.Nodup` explicitly. -/
structure DataFrame where
  nrows : Nat
  cols : List (String × Column)
deriving DecidableEq, Repr

/-- Column labels in order (`df.columns`). -/
def DataFrame.colNames (df : DataFrame) : List String := df.cols.map Prod.fst

/-- Lookup in an association list representing a Python dict. -/
def assocFind {α : Type} : List (String × α) → String → Option α
  | [], _ => none
  | p :: ps, k => if p.1 = k then some p.2 else assocFind ps k

/-- Column selection `df[name]`; `none` models a KeyError. -/
def DataFrame.find (df : DataFrame) (name : String) : Option Column :=
  assocFind df.cols name

/-- Assignment `d[k] = v` on a Python dict kept as an insertion-ordered
association list: an existing key is overwritten in place, a new key is
appended at the end. -/
def dictInsert {α : Type} : List (String × α) → String → α → List (String × α)
  | [], k, v => [(k, v)]
  | p :: ps, k, v => if p.1 = k then (k, v) :: ps else p :: dictInsert ps k v

/-- Boolean-mask row selection `series.loc[mask].to_dict()`: the selected
values keyed by their (positional) row index, starting at index `i`. -/
def maskSelect {α : Type} : Nat → List α → List Bool → List (Nat × α)
  | _, [], _ => []
  | _, _ :: _, [] => []
  | i, v :: vs, b :: bs =>
    if b then (i, v) :: maskSelect (i + 1) vs bs else maskSelect (i + 1) vs bs

/-- Indices of the `true` entries of a boolean mask (`mask[mask].index.tolist()`),
starting at index `i`. -/
def trueIndices : Nat → List Bool → List Nat
  | _, [] => []
  | i, b :: bs => if b then i :: trueIndices (i + 1) bs else trueIndices (i + 1) bs

/-- Number of `true` entries of a boolean mask (`mask.sum()`). -/
def countTrue (bs : List Bool) : Nat := (bs.filter id).length

/-- The per-column difference detail a strategy stores under `differences[column]`;
one constructor per strategy vocabulary, plus `nested` for the sub-dictionaries a
CompositeValidation stores under each failing sub-strategy's class name. -/
inductive Diff where
  | valuePairs (expected actual : List (Nat × Value))
  | dtReport (expected actual : List (Nat × String)) (differenceSeconds : List (Nat × Int))
  | nullReport (mismatchedRows expectedNullCount actualNullCount : Nat)
      (rowsWithDifferences : List Nat)
  | statReport (stats : List (String × ℚ × ℚ × ℚ))
  | patternReport (mismatchedRows : Nat) (invalidValues : List (Nat × Value))
  | nested (sub : List (String × Diff))

/-- The dictionary `{'status': ..., 'differences': ...}` every strategy returns. -/
structure Outcome where
  status : String
  differences : List (String × Diff)

/-- The closing lines shared by every strategy in strategies.py:
`{'status': 'fail' if differences else 'pass', 'differences': differences}`. -/
def mkOutcome (differences : List (String × Diff)) : Outcome :=
  { status := if differences.isEmpty then "pass" else "fail", differences := differences }

/-- The `for column in expected_data.columns:` loop shared by the five
column-wise strategies: `f` is the loop body for one column, returning
`none` when the column is skipped or clean, `some d` when
`differences[column] = d` is assigned, and an error when the body raises. -/
def columnLoop (f : String → Column → Except String (Option Diff)) :
    List (String × Column) → List (String × Diff) → Except String (List (String × Diff))
  | [], acc => .ok acc
  | c :: rest, acc =>
    match f c.1 c.2 with
    | .error msg => .error msg
    | .ok none => columnLoop f rest acc
    | .ok (some d) => columnLoop f rest (dictInsert acc c.1 d)

/-- Row test of NumericValidation (strategies.py lines 19-20): the absolute
difference of two numeric cells exceeds the tolerance; a NaN on either side
propagates through the subtraction and fails the `>` comparison. -/
def numericRowMask (tolerance : ℚ) (ev av : Value) : Bool :=
  match ev, av with
  | .num x, .num y => decide (tolerance < qabs (x - y))
  | _, _ => false

/-- Body of the NumericValidation column loop (strategies.py lines 19-25).
With unequal row counts pandas aligns the subtraction (extra rows become NaN
and never enter the mask) but `.loc[mask, column]` then raises an
IndexingError, which can only be reached when the mask is non-empty. -/
def numericColumn (tolerance : ℚ) (name : String) (ecol acol : Column) :
    Except String (Option Diff) :=
  let mask := (ecol.vals.zip acol.vals).map fun p => numericRowMask tolerance p.1 p.2
  if mask.any id then
    if ecol.vals.length = acol.vals.length then
      .ok (some (.valuePairs (maskSelect 0 ecol.vals mask) (maskSelect 0 acol.vals mask)))
    else .error ("IndexingError: unalignable boolean Series as indexer on column " ++ name)
  else .ok none

/-- NumericValidation.validate (strategies.py lines 14-30). -/
def numericValidate (tolerance : ℚ) (e a : DataFrame) : Except String Outcome := do
  let diffs ← columnLoop (fun name ecol =>
    if ecol.dtype = .numeric then
      match a.find name with
      | none => .error ("KeyError: " ++ name)
      | some acol => numericColumn tolerance name ecol acol
    else .ok none) e.cols []
  .ok (mkOutcome diffs)

/-- Row test of CategoricalValidation (line 38): pandas object-array `!=`;
a NaN compares unequal to everything, including another NaN. -/
def categoricalRowMask (ev av : Value) : Bool :=
  match ev, av with
  | .null, _ => true
  | _, .null => true
  | x, y => decide (x ≠ y)

/-- Body of the CategoricalValidation column loop (lines 38-43).  Comparing two
series of different lengths with `!=` raises a ValueError before any mask is
taken. -/
def categoricalColumn (name : String) (ecol acol : Column) : Except String (Option Diff) :=
  if ecol.vals.length = acol.vals.length then
    let mask := (ecol.vals.zip acol.vals).map fun p => categoricalRowMask p.1 p.2
    if mask.any id then
      .ok (some (.valuePairs (maskSelect 0 ecol.vals mask) (maskSelect 0 acol.vals mask)))
    else .ok none
  else .error ("ValueError: can only compare identically-labeled Series objects: " ++ name)

/-- CategoricalValidation.validate (lines 33-48). -/
def categoricalValidate (e a : DataFrame) : Except String Outcome := do
  let diffs ← columnLoop (fun name ecol =>
    if ecol.dtype = .object then
      match a.find name with
      | none => .error ("KeyError: " ++ name)
      | some acol => categoricalColumn name ecol acol
    else .ok none) e.cols []
  .ok (mkOutcome diffs)

/-- Per-row `abs(expected_col - actual_col)` in seconds (lines 73).  Each side
subtracts as an absolute instant: wall-clock seconds minus the column's
timezone offset at subtraction time (`none` = naive, offset 0 by convention of
naive-naive subtraction).  A NaT on either side yields NaT (`none`). -/
def dtRowDiff (eoff aoff : Option Int) (ev av : Value) : Option Int :=
  match ev, av with
  | .dt x, .dt y => some (((x - eoff.getD 0) - (y - aoff.getD 0)).natAbs : Int)
  | _, _ => none

/-- Body of the DateTimeValidation column loop (lines 63-81).  When
`timezone_aware` is false both columns pass through `tz_localize(None)` first,
which keeps wall-clock times and drops the offsets.  Subtracting a tz-naive
from a tz-aware column (or a non-datetime actual column) raises a TypeError;
as in `numericColumn`, a non-empty mask over unequal row counts raises at the
boolean `.loc` selection.  With equal row counts a non-empty mask still never
yields a report: after the two strftime selections are built, line 80
evaluates `time_diff[mask].total_seconds().to_dict()`, and a Series has no
`total_seconds` attribute (the tz-aware branch) while
`TimedeltaIndex.total_seconds()` returns an Index with no `to_dict` (the
naive branch) — so the differences entry is never assigned and the call
raises an AttributeError instead. -/
def dtColumn (timezoneAware : Bool) (allowed : Int) (name : String)
    (eoff : Option Int) (ecol acol : Column) : Except String (Option Diff) :=
  match acol.dtype with
  | .datetime aoff =>
    let eoff2 := if timezoneAware then eoff else none
    let aoff2 := if timezoneAware then aoff else none
    if eoff2.isSome = aoff2.isSome then
      let diffs := (ecol.vals.zip acol.vals).map fun p => dtRowDiff eoff2 aoff2 p.1 p.2
      let mask := diffs.map fun d =>
        match d with
        | some s => decide (allowed < s)
        | none => false
      if mask.any id then
        if ecol.vals.length = acol.vals.length then
          .error ((if timezoneAware then
              "AttributeError: Series object has no attribute total_seconds on column "
            else
              "AttributeError: Index object has no attribute to_dict on column ") ++ name)
        else .error ("IndexingError: unalignable boolean Series as indexer on column " ++ name)
      else .ok none
    else .error ("TypeError: cannot subtract tz-naive and tz-aware datetime-like on column " ++ name)
  | _ => .error ("TypeError: unsupported operand type for datetime subtraction on column " ++ name)

/-- DateTimeValidation.validate (lines 59-86). -/
def dateTimeValidate (timezoneAware : Bool) (allowed : Int) (e a : DataFrame) :
    Except String Outcome := do
  let diffs ← columnLoop (fun name ecol =>
    match ecol.dtype with
    | .datetime eoff =>
      match a.find name with
      | none => .error ("KeyError: " ++ name)
      | some acol => dtColumn timezoneAware allowed name eoff ecol acol
    | _ => .ok none) e.cols []
  .ok (mkOutcome diffs)

/-- Null-likeness of one cell (lines 97-103): `isna()`, extended — when
`treat_empty_as_null` is set — by equality with `''` or `'null/empty'`.
Equality of a non-string cell with those strings is elementwise False. -/
def nullLike (treatEmptyAsNull : Bool) (v : Value) : Bool :=
  match v with
  | .null => true
  | .str s => treatEmptyAsNull && (s = "" || s = "null/empty")
  | _ => false

/-- Body of the NullValidation column loop (lines 96-112); the `!=` of the two
boolean null-indicator series raises a ValueError on unequal lengths. -/
def nullColumn (flag : Bool) (name : String) (ecol acol : Column) : Except String (Option Diff) :=
  let enulls := ecol.vals.map (nullLike flag)
  let anulls := acol.vals.map (nullLike flag)
  if enulls.length = anulls.length then
    let mask := (enulls.zip anulls).map fun p => decide (p.1 ≠ p.2)
    if mask.any id then
      .ok (some (.nullReport (countTrue mask) (countTrue enulls) (countTrue anulls)
        (trueIndices 0 mask)))
    else .ok none
  else .error ("ValueError: can only compare identically-labeled Series objects: " ++ name)

/-- NullValidation.validate (lines 93-117); every column is examined, with no
dtype filter. -/
def nullValidate (flag : Bool) (e a : DataFrame) : Except String Outcome := do
  let diffs ← columnLoop (fun name ecol =>
    match a.find name with
    | none => .error ("KeyError: " ++ name)
    | some acol => nullColumn flag name ecol acol) e.cols []
  .ok (mkOutcome diffs)

/-- Numeric cells of a column; pandas aggregations skip NaN cells. -/
def colNumericVals (c : Column) : List ℚ :=
  c.vals.filterMap fun v => match v with | .num q => some q | _ => none

/-- Series.mean(): NaN (`none`) on an empty or all-NaN column. -/
def statMean (xs : List ℚ) : Option ℚ :=
  if xs.isEmpty then none else some (xs.sum / xs.length)

/-- Insertion into a sorted list, for the median. -/
def insertSorted (x : ℚ) : List ℚ → List ℚ
  | [] => [x]
  | y :: ys => if x ≤ y then x :: y :: ys else y :: insertSorted x ys

/-- Insertion sort of the cells of a column. -/
def sortQ (xs : List ℚ) : List ℚ := xs.foldr insertSorted []

/-- Series.median(): middle element of the sorted values, or the average of the
two middle elements for an even count; NaN (`none`) when empty. -/
def statMedian (xs : List ℚ) : Option ℚ :=
  let s := sortQ xs
  let n := s.length
  if n = 0 then none
  else if n % 2 = 1 then s[n / 2]?
  else do
    let x ← s[n / 2 - 1]?
    let y ← s[n / 2]?
    some ((x + y) / 2)

/-- Nonnegative rational square root: exact whenever the argument is the square
of a rational (its numerator times its denominator is then a perfect square),
and a floor-style approximation otherwise; zero exactly on arguments that are
at most zero.  It stands in for the floating-point `sqrt` the source applies
inside `std`; no theorem below depends on the approximation error. -/
def sqrtQ (q : ℚ) : ℚ := (Nat.sqrt (q.num.toNat * q.den) : ℚ) / (q.den : ℚ)

/-- Series.std(): sample standard deviation (ddof=1); NaN (`none`) on fewer
than two values. -/
def statStd (xs : List ℚ) : Option ℚ :=
  match statMean xs with
  | none => none
  | some m =>
    if xs.length ≤ 1 then none
    else some (sqrtQ ((xs.map fun x => (x - m) * (x - m)).sum / ((xs.length - 1 : Nat) : ℚ)))

/-- Series.min(): NaN (`none`) when empty. -/
def statMin (xs : List ℚ) : Option ℚ :=
  match xs with
  | [] => none
  | x :: rest => some (rest.foldl (fun u v => if u ≤ v then u else v) x)

/-- Series.max(): NaN (`none`) when empty. -/
def statMax (xs : List ℚ) : Option ℚ :=
  match xs with
  | [] => none
  | x :: rest => some (rest.foldl (fun u v => if u ≤ v then v else u) x)

/-- The five summary statistics of one column (lines 129-143), in the dict
insertion order of the source. -/
def columnStats (c : Column) : List (String × Option ℚ) :=
  let xs := colNumericVals c
  [("mean", statMean xs), ("median", statMedian xs), ("std", statStd xs),
   ("min", statMin xs), ("max", statMax xs)]

/-- One iteration of the flag loop of DistributionValidation (lines 147-156):
when the expected value is non-zero the percentage difference
`abs(expected - actual) / expected * 100` is compared against the threshold.
A NaN expected value passes the `!= 0` test but poisons the percentage, and a
NaN percentage fails the `>` comparison, so a `none` on either side is never
flagged.  The division is by the signed expected value, exactly as in the
source — not by its absolute value. -/
def flagStat (threshold : ℚ) (ev av : Option ℚ) : Option (ℚ × ℚ × ℚ) :=
  match ev, av with
  | some e, some a =>
    if e ≠ 0 then
      let pct := qabs (e - a) / e * 100
      if threshold < pct then some (e, a, pct) else none
    else none
  | _, _ => none

/-- The flag loop over the five statistics (lines 146-156); the actual value of
each statistic is looked up by name in the actual-side stats dict (the lookup
always succeeds, both dicts carrying the same five keys). -/
def statDifferences (threshold : ℚ) (es as : List (String × Option ℚ)) :
    List (String × ℚ × ℚ × ℚ) :=
  es.filterMap fun p =>
    (assocFind as p.1).bind fun av => (flagStat threshold p.2 av).map fun r => (p.1, r)

/-- DistributionValidation.validate (lines 124-164); aggregating a non-numeric
actual column raises a TypeError. -/
def distributionValidate (threshold : ℚ) (e a : DataFrame) : Except String Outcome := do
  let diffs ← columnLoop (fun name ecol =>
    if ecol.dtype = .numeric then
      match a.find name with
      | none => .error ("KeyError: " ++ name)
      | some acol =>
        if acol.dtype = .numeric then
          let sd := statDifferences threshold (columnStats ecol) (columnStats acol)
          if sd.isEmpty then .ok none else .ok (some (.statReport sd))
        else .error ("TypeError: could not aggregate non-numeric column " ++ name)
    else .ok none) e.cols []
  .ok (mkOutcome diffs)

/-- str.match of one cell against a compiled pattern: a non-string cell (NaN
included) gives NaN, which `.fillna(False)` turns into False. -/
def patternMatchCell (m : String → Bool) (v : Value) : Bool :=
  match v with
  | .str s => m s
  | _ => false

/-- Body of the PatternValidation column loop (lines 176-186) for a column with
a configured pattern; `invalid_values` collects every actual-side row whose
value fails the pattern, mismatched or not. -/
def patternColumn (m : String → Bool) (name : String) (ecol acol : Column) :
    Except String (Option Diff) :=
  let ematches := ecol.vals.map (patternMatchCell m)
  let amatches := acol.vals.map (patternMatchCell m)
  if ematches.length = amatches.length then
    let mask := (ematches.zip amatches).map fun p => decide (p.1 ≠ p.2)
    if mask.any id then
      .ok (some (.patternReport (countTrue mask) (maskSelect 0 acol.vals (amatches.map (!·)))))
    else .ok none
  else .error ("ValueError: can only compare identically-labeled Series objects: " ++ name)

/-- PatternValidation.validate (lines 171-191): string-dtype columns with a
configured pattern are compared on match/no-match status.  The patterns dict
carries the match predicate of each compiled regex; a compiled pattern object
is always truthy. -/
def patternValidate (patterns : List (String × (String → Bool))) (e a : DataFrame) :
    Except String Outcome := do
  let diffs ← columnLoop (fun name ecol =>
    if ecol.dtype = .object then
      match assocFind patterns name with
      | none => .ok none
      | some m =>
        match a.find name with
        | none => .error ("KeyError: " ++ name)
        | some acol => patternColumn m name ecol acol
    else .ok none) e.cols []
  .ok (mkOutcome diffs)

/-- The ValidationStrategy family as a tagged variant: one constructor per
concrete subclass in strategies.py.  A `pattern` strategy carries, per column,
the match predicate of its compiled regex; the claims below never depend on
regex semantics, only on match/no-match classification. -/
inductive Strategy where
  | numeric (tolerance : ℚ)
  | categorical
  | datetime (timezoneAware : Bool) (allowTimeDifferenceSeconds : Int)
  | nullStrategy (treatEmptyAsNull : Bool)
  | distribution (thresholdPct : ℚ)
  | pattern (patterns : List (String × (String → Bool)))
  | composite (strategies : List Strategy)

/-- `strategy.__class__.__name__`, the key CompositeValidation uses. -/
def Strategy.className : Strategy → String
  | .numeric _ => "NumericValidation"
  | .categorical => "CategoricalValidation"
  | .datetime _ _ => "DateTimeValidation"
  | .nullStrategy _ => "NullValidation"
  | .distribution _ => "DistributionValidation"
  | .pattern _ => "PatternValidation"
  | .composite _ => "CompositeValidation"

/-- The result-collection loop of CompositeValidation.validate (lines 199-207):
starting from `overall_status = 'pass'` and an empty dict, each failing
sub-strategy sets the status to 'fail' and stores its differences under its
class name; the status is not re-derived from emptiness here. -/
def compositeCombine :
    List (String × Outcome) → String → List (String × Diff) → String × List (String × Diff)
  | [], st, d => (st, d)
  | r :: rest, st, d =>
    if r.2.status = "fail" then
      compositeCombine rest "fail" (dictInsert d r.1 (.nested r.2.differences))
    else compositeCombine rest st d

mutual

/-- ValidationStrategy.validate dispatch over the family. -/
def Strategy.validate : Strategy → DataFrame → DataFrame → Except String Outcome
  | .numeric tol, e, a => numericValidate tol e a
  | .categorical, e, a => categoricalValidate e a
  | .datetime tz allow, e, a => dateTimeValidate tz allow e a
  | .nullStrategy flag, e, a => nullValidate flag e a
  | .distribution t, e, a => distributionValidate t e a
  | .pattern ps, e, a => patternValidate ps e a
  | .composite subs, e, a =>
    match compositeRun subs e a with
    | .error msg => .error msg
    | .ok rs =>
      let p := compositeCombine rs "pass" []
      .ok { status := p.1, differences := p.2 }

/-- The `for strategy in self.strategies:` loop of CompositeValidation
(lines 202-207), pairing each sub-strategy's class name with its outcome in
order; a raising sub-strategy propagates immediately and later sub-strategies
do not run. -/
def compositeRun : List Strategy → DataFrame → DataFrame → Except String (List (String × Outcome))
  | [], _, _ => .ok []
  | s :: rest, e, a =>
    match Strategy.validate s e a with
    | .error msg => .error msg
    | .ok o =>
      match compositeRun rest e a with
      | .error msg => .error msg
      | .ok os => .ok ((s.className, o) :: os)

end

/-- Exceptions crossing the orchestrator boundary (validator.py).  Database
errors and exceptions raised inside a strategy arrive as `exc` with their
message; `nameError` is a Python NameError for an unbound global. -/
inductive PyErr where
  | nameError (name : String)
  | validationError (message : String)
  | exc (message : String)
deriving DecidableEq, Repr

/-- str(e) of an exception. -/
def PyErr.message : PyErr → String
  | .nameError n => "name '" ++ n ++ "' is not defined"
  | .validationError m => m
  | .exc m => m

/-- Names bound at module level of src/validation/validator.py: its four import
lines and the class statement.  `ValidationError` — defined in
src/core/exceptions.py — is not among them: validator.py never imports it. -/
def validatorModuleNames : List String :=
  ["Dict", "Any", "List", "pd", "DatabaseConnector", "ValidationStrategy", "DataValidator"]

/-- The `except Exception` clause of DataValidator.validate_query (lines
38-39): Python resolves the global name `ValidationError` before it can call
it; validator.py does not bind that name, so the attempted wrap itself raises
a NameError and the intended `ValidationError(f"Validation failed: {str(e)}")`
is never constructed. -/
def wrapValidationError (e : PyErr) : PyErr :=
  if "ValidationError" ∈ validatorModuleNames then
    .validationError ("Validation failed: " ++ e.message)
  else .nameError "ValidationError"

/-- `source_data.columns.intersection(target_data.columns)` (line 25): the
common column labels, kept unique, in source order. -/
def commonColumns (s t : DataFrame) : List String :=
  (s.colNames.filter fun c => decide (c ∈ t.colNames)).dedup

/-- Column projection `df[common_columns]` (lines 26-27): the named columns in
the given order; the frame's index, and with it the row count, is untouched. -/
def project (df : DataFrame) (names : List String) : DataFrame :=
  ⟨df.nrows, names.filterMap fun c => (df.find c).map fun col => (c, col)⟩

/-- The summary dict validate_query returns (lines 32-37). -/
structure Summary where
  status : String
  details : List (String × Diff)
  source_rows : Nat
  target_rows : Nat

/-- DataValidator.validate_query (lines 19-39).  The two execute_query results
arrive from the external database collaborators, so a failed fetch arrives as
an error value.  The body aligns both frames to their common columns,
delegates to the strategy, and packages the summary with `details` taken from
the differences only on failure; any exception raised anywhere in the body
lands in the except clause modelled by `wrapValidationError`, and no partial
summary is produced. -/
def validate_query (sourceResult targetResult : Except PyErr DataFrame)
    (strategy : Strategy) : Except PyErr Summary :=
  let body : Except PyErr Summary := do
    let source_data ← sourceResult
    let target_data ← targetResult
    let common := commonColumns source_data target_data
    let sourceP := project source_data common
    let targetP := project target_data common
    match Strategy.validate strategy sourceP targetP with
    | .error msg => .error (.exc msg)
    | .ok result =>
      .ok { status := result.status,
            details := if result.status = "fail" then result.differences else [],
            source_rows := sourceP.nrows,
            target_rows := targetP.nrows }
  match body with
  | .ok r => .ok r
  | .error e => .error (wrapValidationError e)

/-- Names bound at module level of src/validation/strategies.py by its import
lines 1-3 (from abc, pandas, typing) and its class statements; neither `re`
nor `List` is ever imported there. -/
def strategiesModuleNames : List String :=
  ["ABC", "abstractmethod", "pd", "Dict", "Any",
   "ValidationStrategy", "NumericValidation", "CategoricalValidation",
   "DateTimeValidation", "NullValidation", "DistributionValidation", "PatternValidation"]

/-- Python global-name resolution inside the strategies module. -/
def strategiesLookup (n : String) : Except PyErr Unit :=
  if n ∈ strategiesModuleNames then .ok () else .error (.nameError n)

/-- PatternValidation.__init__ (lines 168-169): the dict comprehension
`{k: re.compile(v) for k, v in patterns.items()}` resolves the global name
`re` once per entry before compiling that entry; with no entries the body
never runs and no lookup happens.  Compilation itself is modelled as the
identity on the raw pattern text, since it is never reached. -/
def patternValidationInit : List (String × String) → Except PyErr (List (String × String))
  | [] => .ok []
  | kv :: rest => do
    let _ ← strategiesLookup "re"
    let others ← patternValidationInit rest
    pure (kv :: others)

/-- The names the parameter annotation `List[ValidationStrategy]` of
CompositeValidation.__init__ (line 195) resolves when the def statement
executes during class-body evaluation. -/
def compositeInitSignatureNames : List String := ["List", "ValidationStrategy"]

/-- The observable effects of one `strategy.validate(expected, actual)` call:
the returned outcome together with the states of the three participating
objects after the call.  The validate bodies only read `self` (tolerance,
patterns, thresholds, the sub-strategy list) and build fresh local objects —
`.isna()`, `-`, `.abs()`, `.loc` selections and fresh `differences` dicts;
they contain no assignment to `self` or to either input frame, so each state
after the call is the state before it. -/
structure RunEffects where
  outcome : Except String Outcome
  strategyAfter : Strategy
  expectedAfter : DataFrame
  actualAfter : DataFrame

/-- One full validate call together with its effects on the participating
objects (see `RunEffects`). -/
def Strategy.run (s : Strategy) (e a : DataFrame) : RunEffects :=
  { outcome := s.validate e a, strategyAfter := s, expectedAfter := e, actualAfter := a }

mutual

/-- The column names one differences entry refers to: a `nested` entry is
keyed by a sub-strategy class name and contributes the columns of its nested
dict; every other entry is keyed by a column name. -/
def diffEntryCols : String × Diff → List String
  | (_, .nested ds) => diffListCols ds
  | (k, _) => [k]

/-- All column names a differences dict refers to, `nested` entries included. -/
def diffListCols : List (String × Diff) → List String
  | [] => []
  | p :: ps => diffEntryCols p ++ diffListCols ps

end

/-- Whether row index `i` appears in the differences recorded for column `c`:
among the expected-value keys for Numeric/Categorical, the formatted-timestamp
keys for DateTime, or the mismatching-row list for Null. -/
def Outcome.rowReported (out : Outcome) (c : String) (i : Nat) : Bool :=
  match assocFind out.differences c with
  | some (.valuePairs ep _) => ep.any fun p => decide (p.1 = i)
  | some (.dtReport ep _ _) => ep.any fun p => decide (p.1 = i)
  | some (.nullReport _ _ _ rows) => rows.contains i
  | _ => false

/-- Whether statistic `stat` is flagged for column `c` in a Distribution
outcome. -/
def Outcome.statFlagged (out : Outcome) (c stat : String) : Bool :=
  match assocFind out.differences c with
  | some (.statReport l) => l.any fun p => decide (p.1 = stat)
  | _ => false

/-- Modelled from the spec: the "relative percentage difference" between an
expected and an actual statistic, `|expected - actual| / |expected| * 100` —
the denominator taken in absolute value, as the phrase denotes a nonnegative
relative discrepancy.  Compare `flagStat`, which divides by the signed
expected value. -/
def relPctDiff (e a : ℚ) : ℚ := qabs (e - a) / qabs e * 100

/-! ### Association-list, mask and loop lemmas -/

theorem assocFind_dictInsert_self {α : Type} (l : List (String × α)) (k : String) (v : α) :
    assocFind (dictInsert l k v) k = some v := by
  induction l with
  | nil => simp [dictInsert, assocFind]
  | cons p ps ih =>
    by_cases h : p.1 = k
    · simp [dictInsert, h, assocFind]
    · simp [dictInsert, h, assocFind, ih]

theorem assocFind_dictInsert_ne {α : Type} (l : List (String × α)) (k k' : String) (v : α)
    (h : k' ≠ k) : assocFind (dictInsert l k v) k' = assocFind l k' := by
  induction l with
  | nil => simp [dictInsert, assocFind, Ne.symm h]
  | cons p ps ih =>
    by_cases hp : p.1 = k
    · simp [dictInsert, hp, assocFind, Ne.symm h, (hp ▸ h.symm : p.1 ≠ k')]
    · simp only [dictInsert, hp, if_false, assocFind]
      by_cases hk : p.1 = k'
      · simp [hk]
      · simp [hk, ih]

theorem mem_keys_dictInsert {α : Type} (l : List (String × α)) (k k' : String) (v : α) :
    k' ∈ (dictInsert l k v).map Prod.fst ↔ k' = k ∨ k' ∈ l.map Prod.fst := by
  induction l with
  | nil => simp [dictInsert]
  | cons p ps ih =>
    by_cases hp : p.1 = k
    · simp only [dictInsert, hp, if_true, List.map_cons, List.mem_cons, ih]
      rw [← hp]
      tauto
    · simp only [dictInsert, hp, if_false, List.map_cons, List.mem_cons, ih]
      tauto

theorem dictInsert_ne_nil {α : Type} (l : List (String × α)) (k : String) (v : α) :
    dictInsert l k v ≠ [] := by
  cases l with
  | nil => simp [dictInsert]
  | cons p ps => by_cases hp : p.1 = k <;> simp [dictInsert, hp]

theorem mem_dictInsert {α : Type} (l : List (String × α)) (k : String) (v : α) :
    ∀ p ∈ dictInsert l k v, p ∈ l ∨ p = (k, v) := by
  induction l with
  | nil => simp [dictInsert]
  | cons q qs ih =>
    intro p hp
    by_cases hq : q.1 = k
    · simp only [dictInsert, hq, if_true, List.mem_cons] at hp
      rcases hp with h | h
      · exact Or.inr h
      · exact Or.inl (List.mem_cons_of_mem _ h)
    · simp only [dictInsert, hq, if_false, List.mem_cons] at hp
      rcases hp with h | h
      · exact Or.inl (h ▸ List.mem_cons_self _ _)
      · rcases ih p h with h' | h'
        · exact Or.inl (List.mem_cons_of_mem _ h')
        · exact Or.inr h'

theorem assocFind_eq_of_mem_nodup {α : Type} {l : List (String × α)} {k : String} {v : α}
    (hnd : (l.map Prod.fst).Nodup) (hm : (k, v) ∈ l) : assocFind l k = some v := by
  induction l with
  | nil => cases hm
  | cons p ps ih =>
    rcases List.mem_cons.mp hm with h | h
    · simp [assocFind, ← h]
    · have hk : k ∈ ps.map Prod.fst := List.mem_map.mpr ⟨(k, v), h, rfl⟩
      have hp : p.1 ≠ k := by
        intro hpk
        exact (List.nodup_cons.mp hnd).1 (hpk ▸ hk)
      simp [assocFind, hp, ih (List.nodup_cons.mp hnd).2 h]

theorem except_bind_ok {ε α β : Type} (m : Except ε α) (k : α → Except ε β) (b : β) :
    (m >>= k) = .ok b ↔ ∃ a, m = .ok a ∧ k a = .ok b := by
  cases m with
  | error e => simp [Bind.bind, Except.bind]
  | ok a => simp [Bind.bind, Except.bind]

theorem mkOutcome_differences (d : List (String × Diff)) : (mkOutcome d).differences = d := rfl

theorem mkOutcome_fail_iff (d : List (String × Diff)) :
    (mkOutcome d).status = "fail" ↔ d ≠ [] := by
  cases d <;> simp [mkOutcome]

theorem mkOutcome_pass_iff (d : List (String × Diff)) :
    (mkOutcome d).status = "pass" ↔ d = [] := by
  cases d <;> simp [mkOutcome]

theorem maskSelect_fst_ge {α : Type} :
    ∀ (vs : List α) (n : Nat) (bs : List Bool) (m : Nat),
      m ∈ (maskSelect n vs bs).map Prod.fst → n ≤ m := by
  intro vs
  induction vs with
  | nil => intro n bs m h; simp [maskSelect] at h
  | cons v vs ih =>
    intro n bs m h
    cases bs with
    | nil => simp [maskSelect] at h
    | cons b bs =>
      by_cases hb : b
      · simp only [maskSelect, hb, if_true, List.map_cons, List.mem_cons] at h
        rcases h with h | h
        · omega
        · have := ih (n + 1) bs m h
          omega
      · simp only [maskSelect, hb, if_false] at h
        have := ih (n + 1) bs m h
        omega

theorem mem_maskSelect {α : Type} :
    ∀ (vs : List α) (n j : Nat) (bs : List Bool),
      ((n + j) ∈ (maskSelect n vs bs).map Prod.fst) ↔ (bs[j]? = some true ∧ j < vs.length) := by
  intro vs
  induction vs with
  | nil => intro n j bs; simp [maskSelect]
  | cons v vs ih =>
    intro n j bs
    cases bs with
    | nil => simp [maskSelect]
    | cons b bs =>
      cases j with
      | zero =>
        cases b with
        | true => simp [maskSelect]
        | false =>
          simp only [maskSelect, Bool.false_eq_true, if_false, Nat.add_zero,
            List.getElem?_cons_zero, List.length_cons]
          constructor
          · intro h
            have := maskSelect_fst_ge vs (n + 1) bs _ h
            omega
          · intro h
            simp at h
      | succ j =>
        have harith : n + (j + 1) = (n + 1) + j := by omega
        cases b with
        | true =>
          simp only [maskSelect, if_true, List.map_cons, List.mem_cons, harith,
            ih (n + 1) j bs, List.getElem?_cons_succ, List.length_cons]
          constructor
          · intro h
            rcases h with h | h
            · omega
            · exact ⟨h.1, by omega⟩
          · intro h
            exact Or.inr ⟨h.1, by omega⟩
        | false =>
          simp only [maskSelect, Bool.false_eq_true, if_false, harith,
            ih (n + 1) j bs, List.getElem?_cons_succ, List.length_cons]
          constructor
          · intro h; exact ⟨h.1, by omega⟩
          · intro h; exact ⟨h.1, by omega⟩

theorem mem_maskSelect_zero {α : Type} (vs : List α) (bs : List Bool) (i : Nat) :
    (i ∈ (maskSelect 0 vs bs).map Prod.fst) ↔ (bs[i]? = some true ∧ i < vs.length) := by
  have := mem_maskSelect vs 0 i bs
  rwa [Nat.zero_add] at this

theorem trueIndices_ge :
    ∀ (bs : List Bool) (n m : Nat), m ∈ trueIndices n bs → n ≤ m := by
  intro bs
  induction bs with
  | nil => intro n m h; simp [trueIndices] at h
  | cons b bs ih =>
    intro n m h
    by_cases hb : b
    · simp only [trueIndices, hb, if_true, List.mem_cons] at h
      rcases h with h | h
      · omega
      · have := ih (n + 1) m h; omega
    · simp only [trueIndices, hb, if_false] at h
      have := ih (n + 1) m h; omega

theorem mem_trueIndices :
    ∀ (bs : List Bool) (n j : Nat), ((n + j) ∈ trueIndices n bs) ↔ bs[j]? = some true := by
  intro bs
  induction bs with
  | nil => intro n j; simp [trueIndices]
  | cons b bs ih =>
    intro n j
    cases j with
    | zero =>
      cases b with
      | true => simp [trueIndices]
      | false =>
        simp only [trueIndices, Bool.false_eq_true, if_false, Nat.add_zero,
          List.getElem?_cons_zero]
        constructor
        · intro h
          have := trueIndices_ge bs (n + 1) _ h
          omega
        · intro h
          simp at h
    | succ j =>
      have harith : n + (j + 1) = (n + 1) + j := by omega
      cases b with
      | true =>
        simp only [trueIndices, if_true, List.mem_cons, harith, ih (n + 1) j,
          List.getElem?_cons_succ]
        constructor
        · intro h
          rcases h with h | h
          · omega
          · exact h
        · intro h; exact Or.inr h
      | false =>
        simp only [trueIndices, Bool.false_eq_true, if_false, harith, ih (n + 1) j,
          List.getElem?_cons_succ]

theorem mem_trueIndices_zero (bs : List Bool) (i : Nat) :
    (i ∈ trueIndices 0 bs) ↔ bs[i]? = some true := by
  have := mem_trueIndices bs 0 i
  rwa [Nat.zero_add] at this

theorem columnLoop_find_not_mem (f : String → Column → Except String (Option Diff)) :
    ∀ (cols : List (String × Column)) (acc diffs : List (String × Diff)),
      columnLoop f cols acc = .ok diffs → ∀ c, c ∉ cols.map Prod.fst →
      assocFind diffs c = assocFind acc c := by
  intro cols
  induction cols with
  | nil =>
    intro acc diffs h c _
    simp only [columnLoop, Except.ok.injEq] at h
    rw [h]
  | cons col rest ih =>
    intro acc diffs h c hc
    simp only [List.map_cons, List.mem_cons] at hc
    push_neg at hc
    simp only [columnLoop] at h
    cases hf : f col.1 col.2 with
    | error msg => rw [hf] at h; cases h
    | ok r =>
      rw [hf] at h
      cases r with
      | none => exact ih acc diffs h c hc.2
      | some d =>
        rw [ih _ diffs h c hc.2]
        exact assocFind_dictInsert_ne _ _ _ _ hc.1

theorem columnLoop_find_mem (f : String → Column → Except String (Option Diff)) :
    ∀ (cols : List (String × Column)) (acc diffs : List (String × Diff)),
      columnLoop f cols acc = .ok diffs → (cols.map Prod.fst).Nodup →
      ∀ c col, (c, col) ∈ cols →
      ∃ r, f c col = .ok r ∧
        assocFind diffs c = (match r with | some d => some d | none => assocFind acc c) := by
  intro cols
  induction cols with
  | nil => intro _ _ _ _ c col hm; cases hm
  | cons hd rest ih =>
    intro acc diffs h hnd c col hm
    have hnd' : hd.1 ∉ rest.map Prod.fst ∧ (rest.map Prod.fst).Nodup := by
      rw [List.map_cons, List.nodup_cons] at hnd
      exact hnd
    simp only [columnLoop] at h
    rcases List.mem_cons.mp hm with heq | hmem
    · -- the head column is the one being characterized
      cases hf : f hd.1 hd.2 with
      | error msg => rw [hf] at h; cases h
      | ok r =>
        rw [hf] at h
        have hc1 : hd.1 = c := by rw [← heq]
        have hcol : hd.2 = col := by rw [← heq]
        refine ⟨r, by rw [hc1, hcol] at hf; exact hf, ?_⟩
        have hcnot : c ∉ rest.map Prod.fst := hc1 ▸ hnd'.1
        cases r with
        | none => exact columnLoop_find_not_mem f rest acc diffs h c hcnot
        | some d =>
          rw [columnLoop_find_not_mem f rest _ diffs h c hcnot, hc1]
          exact assocFind_dictInsert_self _ _ _
    · -- the column sits further down the list
      have hck : c ∈ rest.map Prod.fst := List.mem_map.mpr ⟨(c, col), hmem, rfl⟩
      have hne : c ≠ hd.1 := fun hc => hnd'.1 (hc ▸ hck)
      cases hf : f hd.1 hd.2 with
      | error msg => rw [hf] at h; cases h
      | ok r =>
        rw [hf] at h
        cases r with
        | none => exact ih acc diffs h hnd'.2 c col hmem
        | some d =>
          rcases ih _ diffs h hnd'.2 c col hmem with ⟨r', hr', hfind⟩
          refine ⟨r', hr', ?_⟩
          cases r' with
          | some d' => exact hfind
          | none => rw [hfind]; exact assocFind_dictInsert_ne _ _ _ _ hne

theorem columnLoop_keys (f : String → Column → Except String (Option Diff)) :
    ∀ (cols : List (String × Column)) (acc diffs : List (String × Diff)),
      columnLoop f cols acc = .ok diffs →
      ∀ k, k ∈ diffs.map Prod.fst → k ∈ cols.map Prod.fst ∨ k ∈ acc.map Prod.fst := by
  intro cols
  induction cols with
  | nil =>
    intro acc diffs h k hk
    simp only [columnLoop, Except.ok.injEq] at h
    exact Or.inr (h ▸ hk)
  | cons hd rest ih =>
    intro acc diffs h k hk
    simp only [columnLoop] at h
    cases hf : f hd.1 hd.2 with
    | error msg => rw [hf] at h; cases h
    | ok r =>
      rw [hf] at h
      cases r with
      | none =>
        rcases ih acc diffs h k hk with h' | h'
        · exact Or.inl (by simp [h'])
        · exact Or.inr h'
      | some d =>
        rcases ih _ diffs h k hk with h' | h'
        · exact Or.inl (by simp [h'])
        · rcases (mem_keys_dictInsert acc hd.1 k d).mp h' with h'' | h''
          · exact Or.inl (by simp [h''])
          · exact Or.inr h''

theorem columnLoop_values (f : String → Column → Except String (Option Diff))
    (P : Diff → Prop) (hf : ∀ c col d, f c col = .ok (some d) → P d) :
    ∀ (cols : List (String × Column)) (acc diffs : List (String × Diff)),
      columnLoop f cols acc = .ok diffs → (∀ p ∈ acc, P p.2) → ∀ p ∈ diffs, P p.2 := by
  intro cols
  induction cols with
  | nil =>
    intro acc diffs h hacc p hp
    simp only [columnLoop, Except.ok.injEq] at h
    exact hacc p (h ▸ hp)
  | cons hd rest ih =>
    intro acc diffs h hacc p hp
    simp only [columnLoop] at h
    cases hg : f hd.1 hd.2 with
    | error msg => rw [hg] at h; cases h
    | ok r =>
      rw [hg] at h
      cases r with
      | none => exact ih acc diffs h hacc p hp
      | some d =>
        refine ih _ diffs h ?_ p hp
        intro q hq
        rcases mem_dictInsert acc hd.1 d q hq with h' | h'
        · exact hacc q h'
        · rw [h']
          exact hf hd.1 hd.2 d hg

/-! ### Composite lemmas -/

theorem compositeCombine_status :
    ∀ (rs : List (String × Outcome)) (st : String) (d : List (String × Diff)),
      ((compositeCombine rs st d).1 = "fail" ↔
        st = "fail" ∨ ∃ r ∈ rs, r.2.status = "fail") := by
  intro rs
  induction rs with
  | nil => intro st d; simp [compositeCombine]
  | cons r rest ih =>
    intro st d
    by_cases hr : r.2.status = "fail"
    · simp only [compositeCombine]
      rw [if_pos hr, ih]
      constructor
      · intro _
        exact Or.inr ⟨r, List.mem_cons_self _ _, hr⟩
      · intro _
        exact Or.inl rfl
    · simp only [compositeCombine]
      rw [if_neg hr, ih]
      simp only [List.mem_cons]
      constructor
      · rintro (h | ⟨x, hx, hs⟩)
        · exact Or.inl h
        · exact Or.inr ⟨x, Or.inr hx, hs⟩
      · rintro (h | ⟨x, hx | hx, hs⟩)
        · exact Or.inl h
        · exact absurd (hx ▸ hs) hr
        · exact Or.inr ⟨x, hx, hs⟩

theorem compositeCombine_keys :
    ∀ (rs : List (String × Outcome)) (st : String) (d : List (String × Diff)) (k : String),
      (k ∈ (compositeCombine rs st d).2.map Prod.fst ↔
        (∃ r ∈ rs, r.2.status = "fail" ∧ r.1 = k) ∨ k ∈ d.map Prod.fst) := by
  intro rs
  induction rs with
  | nil => intro st d k; simp [compositeCombine]
  | cons r rest ih =>
    intro st d k
    by_cases hr : r.2.status = "fail"
    · simp only [compositeCombine]
      rw [if_pos hr, ih, mem_keys_dictInsert]
      simp only [List.mem_cons]
      constructor
      · rintro (⟨x, hx, hs, hk⟩ | h | h)
        · exact Or.inl ⟨x, Or.inr hx, hs, hk⟩
        · exact Or.inl ⟨r, Or.inl rfl, hr, h.symm⟩
        · exact Or.inr h
      · rintro (⟨x, hx | hx, hs, hk⟩ | h)
        · exact Or.inr (Or.inl (by rw [hx] at hk; exact hk.symm))
        · exact Or.inl ⟨x, hx, hs, hk⟩
        · exact Or.inr (Or.inr h)
    · simp only [compositeCombine]
      rw [if_neg hr, ih]
      simp only [List.mem_cons]
      constructor
      · rintro (⟨x, hx, hs, hk⟩ | h)
        · exact Or.inl ⟨x, Or.inr hx, hs, hk⟩
        · exact Or.inr h
      · rintro (⟨x, hx | hx, hs, hk⟩ | h)
        · exact absurd (hx ▸ hs) hr
        · exact Or.inl ⟨x, hx, hs, hk⟩
        · exact Or.inr h

theorem compositeCombine_values :
    ∀ (rs : List (String × Outcome)) (st : String) (d : List (String × Diff)),
      ∀ p ∈ (compositeCombine rs st d).2,
        p ∈ d ∨ ∃ r ∈ rs, p = (r.1, Diff.nested r.2.differences) := by
  intro rs
  induction rs with
  | nil =>
    intro st d p hp
    exact Or.inl hp
  | cons r rest ih =>
    intro st d p hp
    by_cases hr : r.2.status = "fail"
    · simp only [compositeCombine, hr, if_true] at hp
      rcases ih _ _ p hp with h | ⟨x, hx, hpx⟩
      · rcases mem_dictInsert d r.1 _ p h with h' | h'
        · exact Or.inl h'
        · exact Or.inr ⟨r, List.mem_cons_self _ _, h'⟩
      · exact Or.inr ⟨x, List.mem_cons_of_mem _ hx, hpx⟩
    · simp only [compositeCombine, hr, if_false] at hp
      rcases ih _ _ p hp with h | ⟨x, hx, hpx⟩
      · exact Or.inl h
      · exact Or.inr ⟨x, List.mem_cons_of_mem _ hx, hpx⟩

theorem compositeCombine_inv :
    ∀ (rs : List (String × Outcome)) (st : String) (d : List (String × Diff)),
      (st = "fail" ↔ d ≠ []) → (st = "pass" ∨ st = "fail") →
      (((compositeCombine rs st d).1 = "fail" ↔ (compositeCombine rs st d).2 ≠ []) ∧
        ((compositeCombine rs st d).1 = "pass" ∨ (compositeCombine rs st d).1 = "fail")) := by
  intro rs
  induction rs with
  | nil => intro st d h hv; exact ⟨h, hv⟩
  | cons r rest ih =>
    intro st d h hv
    by_cases hr : r.2.status = "fail"
    · simp only [compositeCombine, hr, if_true]
      exact ih "fail" _ (by simp [dictInsert_ne_nil]) (Or.inr rfl)
    · simp only [compositeCombine, hr, if_false]
      exact ih st d h hv

theorem compositeRun_ok_sub :
    ∀ (subs : List Strategy) (e a : DataFrame) (rs : List (String × Outcome)),
      compositeRun subs e a = .ok rs →
      ∀ s ∈ subs, ∃ o, Strategy.validate s e a = .ok o := by
  intro subs
  induction subs with
  | nil => intro e a rs _ s hs; cases hs
  | cons hd rest ih =>
    intro e a rs h s hs
    simp only [compositeRun] at h
    cases hhd : Strategy.validate hd e a with
    | error msg => rw [hhd] at h; cases h
    | ok o =>
      rw [hhd] at h
      cases hrest : compositeRun rest e a with
      | error msg => rw [hrest] at h; cases h
      | ok os =>
        rcases List.mem_cons.mp hs with heq | hmem
        · exact ⟨o, heq ▸ hhd⟩
        · exact ih e a os hrest s hmem

theorem compositeRun_mem_iff :
    ∀ (subs : List Strategy) (e a : DataFrame) (rs : List (String × Outcome)),
      compositeRun subs e a = .ok rs →
      ∀ k o, ((k, o) ∈ rs ↔
        ∃ s ∈ subs, s.className = k ∧ Strategy.validate s e a = .ok o) := by
  intro subs
  induction subs with
  | nil =>
    intro e a rs h k o
    simp only [compositeRun, Except.ok.injEq] at h
    simp [← h]
  | cons hd rest ih =>
    intro e a rs h k o
    simp only [compositeRun] at h
    cases hhd : Strategy.validate hd e a with
    | error msg => rw [hhd] at h; cases h
    | ok o0 =>
      rw [hhd] at h
      cases hrest : compositeRun rest e a with
      | error msg => rw [hrest] at h; cases h
      | ok os =>
        rw [hrest] at h
        have hrs : rs = (hd.className, o0) :: os := by
          cases h
          rfl
        subst hrs
        simp only [List.mem_cons, Prod.mk.injEq]
        constructor
        · rintro (⟨hk, ho⟩ | hmem)
          · exact ⟨hd, Or.inl rfl, hk.symm, by rw [ho]; exact hhd⟩
          · rcases (ih e a os hrest k o).mp hmem with ⟨s, hs, hn, hv⟩
            exact ⟨s, Or.inr hs, hn, hv⟩
        · rintro ⟨s, hs | hs, hn, hv⟩
          · subst hs
            have ho : o0 = o := (Except.ok.injEq _ _).mp (hhd.symm.trans hv)
            exact Or.inl ⟨hn.symm, ho.symm⟩
          · exact Or.inr ((ih e a os hrest k o).mpr ⟨s, hs, hn, hv⟩)

theorem compositeRun_total :
    ∀ (subs : List Strategy) (e a : DataFrame),
      (∀ s ∈ subs, ∃ o, Strategy.validate s e a = .ok o) →
      ∃ rs, compositeRun subs e a = .ok rs := by
  intro subs
  induction subs with
  | nil => intro e a _; exact ⟨[], rfl⟩
  | cons hd rest ih =>
    intro e a h
    rcases h hd (List.mem_cons_self _ _) with ⟨o, ho⟩
    rcases ih e a (fun s hs => h s (List.mem_cons_of_mem _ hs)) with ⟨os, hos⟩
    exact ⟨(hd.className, o) :: os, by simp only [compositeRun, ho, hos]⟩

/-! ### Bridging helpers -/

theorem any_fst_eq {α : Type} (l : List (Nat × α)) (i : Nat) :
    ((l.any fun p => decide (p.1 = i)) = true) ↔ i ∈ l.map Prod.fst := by
  simp [List.any_eq_true, List.mem_map]

theorem validate_numeric (tol : ℚ) (e a : DataFrame) :
    Strategy.validate (.numeric tol) e a = numericValidate tol e a := by
  simp [Strategy.validate]

theorem validate_categorical (e a : DataFrame) :
    Strategy.validate .categorical e a = categoricalValidate e a := by
  simp [Strategy.validate]

theorem validate_datetime (tz : Bool) (allow : Int) (e a : DataFrame) :
    Strategy.validate (.datetime tz allow) e a = dateTimeValidate tz allow e a := by
  simp [Strategy.validate]

theorem validate_nullStrategy (flag : Bool) (e a : DataFrame) :
    Strategy.validate (.nullStrategy flag) e a = nullValidate flag e a := by
  simp [Strategy.validate]

theorem validate_distribution (t : ℚ) (e a : DataFrame) :
    Strategy.validate (.distribution t) e a = distributionValidate t e a := by
  simp [Strategy.validate]

theorem validate_pattern (ps : List (String × (String → Bool))) (e a : DataFrame) :
    Strategy.validate (.pattern ps) e a = patternValidate ps e a := by
  simp [Strategy.validate]

/-- Status/emptiness facts for any strategy body of the shape "run the column
loop, then close with `mkOutcome`". -/
theorem bindOutcome_status {m : Except String (List (String × Diff))} {out : Outcome}
    (h : (do let diffs ← m; Except.ok (mkOutcome diffs) : Except String Outcome) = .ok out) :
    (out.status = "fail" ↔ out.differences ≠ []) ∧
      (out.status = "pass" ↔ out.differences = []) := by
  rw [except_bind_ok] at h
  obtain ⟨diffs, _, hout⟩ := h
  have hde : mkOutcome diffs = out := (Except.ok.injEq _ _).mp hout
  rw [← hde, mkOutcome_differences]
  exact ⟨mkOutcome_fail_iff diffs, mkOutcome_pass_iff diffs⟩

/-! ### Claim theorems -/

/-- C2: for every strategy in the family (Numeric, Categorical, DateTime, Null,
Distribution, Pattern, Composite) and every pair of input DataFrames, an
outcome the strategy returns has status 'fail' exactly when its differences
mapping is non-empty, and status 'pass' exactly when it is empty — the status
is derived from that emptiness test alone. -/
theorem status_iff_differences (s : Strategy) (e a : DataFrame) (out : Outcome)
    (hok : Strategy.validate s e a = .ok out) :
    (out.status = "fail" ↔ out.differences ≠ []) ∧
      (out.status = "pass" ↔ out.differences = []) := by
  cases s with
  | numeric tol =>
    rw [validate_numeric] at hok
    exact bindOutcome_status hok
  | categorical =>
    rw [validate_categorical] at hok
    exact bindOutcome_status hok
  | datetime tz allow =>
    rw [validate_datetime] at hok
    exact bindOutcome_status hok
  | nullStrategy flag =>
    rw [validate_nullStrategy] at hok
    exact bindOutcome_status hok
  | distribution t =>
    rw [validate_distribution] at hok
    exact bindOutcome_status hok
  | pattern ps =>
    rw [validate_pattern] at hok
    exact bindOutcome_status hok
  | composite subs =>
    simp only [Strategy.validate] at hok
    cases hr : compositeRun subs e a with
    | error msg => rw [hr] at hok; cases hok
    | ok rs =>
      rw [hr] at hok
      have hout : (⟨(compositeCombine rs "pass" []).1,
          (compositeCombine rs "pass" []).2⟩ : Outcome) = out :=
        (Except.ok.injEq _ _).mp hok
      have hinv := compositeCombine_inv rs "pass" [] (by simp) (Or.inl rfl)
      have hpassiff : (compositeCombine rs "pass" []).1 = "pass" ↔
          (compositeCombine rs "pass" []).2 = [] := by
        constructor
        · intro hp
          by_contra hd
          have hf := hinv.1.mpr hd
          rw [hf] at hp
          exact absurd hp (by decide)
        · intro hd
          rcases hinv.2 with h | h
          · exact h
          · exact absurd hd (hinv.1.mp h)
      rw [← hout]
      exact ⟨hinv.1, hpassiff⟩

/-- The numeric scenario of the spec: column `amt`, expected rows 10.0 and
20.0, actual rows 10.0 and 20.0005 (= 40001/2000). -/
def amtExpected : DataFrame := ⟨2, [("amt", ⟨.numeric, [.num 10, .num 20]⟩)]⟩

/-- Actual side of the numeric scenario. -/
def amtActual : DataFrame := ⟨2, [("amt", ⟨.numeric, [.num 10, .num (40001/2000)]⟩)]⟩

/-- The outcome of the numeric scenario at tolerance 1e-6: row 1 reported with
expected 20.0 and actual 20.0005. -/
def scenarioBOut : Outcome :=
  ⟨"fail", [("amt", .valuePairs [(1, .num 20)] [(1, .num (40001/2000))])]⟩

/-- Witness for C2 at a concrete failing Numeric comparison. -/
theorem status_iff_differences_witness :
    Strategy.validate (.numeric (1/1000000)) amtExpected amtActual = .ok scenarioBOut ∧
      (scenarioBOut.status = "fail" ↔ scenarioBOut.differences ≠ []) :=
  ⟨rfl, (status_iff_differences (.numeric (1/1000000)) amtExpected amtActual scenarioBOut
    (by rfl)).1⟩

/-- C10: for every strategy and every pair of input DataFrames, a validate
call leaves the strategy object and both input frames exactly as they were,
and running the same call again on the post-call states returns the identical
result — repeated comparison is deterministic and side-effect free. -/
theorem strategy_rerun_identical (s : Strategy) (e a : DataFrame) :
    (s.run e a).strategyAfter = s ∧ (s.run e a).expectedAfter = e ∧
      (s.run e a).actualAfter = a ∧
      ((s.run e a).strategyAfter.run (s.run e a).expectedAfter
        (s.run e a).actualAfter).outcome = (s.run e a).outcome :=
  ⟨rfl, rfl, rfl, rfl⟩

/-- C3: a Composite outcome certifies that every sub-strategy ran to
completion, its status is 'fail' exactly when some sub-strategy failed, and
its difference keys are exactly the class names of the failing sub-strategies. -/
theorem composite_runs_all (subs : List Strategy) (e a : DataFrame) (out : Outcome)
    (hok : Strategy.validate (.composite subs) e a = .ok out) :
    (∀ s ∈ subs, ∃ o, Strategy.validate s e a = .ok o) ∧
      (out.status = "fail" ↔
        ∃ s ∈ subs, ∃ o, Strategy.validate s e a = .ok o ∧ o.status = "fail") ∧
      (∀ k, k ∈ out.differences.map Prod.fst ↔
        ∃ s ∈ subs, ∃ o, Strategy.validate s e a = .ok o ∧ o.status = "fail" ∧
          s.className = k) := by
  simp only [Strategy.validate] at hok
  cases hr : compositeRun subs e a with
  | error msg => rw [hr] at hok; cases hok
  | ok rs =>
    rw [hr] at hok
    have hout : (⟨(compositeCombine rs "pass" []).1,
        (compositeCombine rs "pass" []).2⟩ : Outcome) = out :=
      (Except.ok.injEq _ _).mp hok
    refine ⟨compositeRun_ok_sub subs e a rs hr, ?_, ?_⟩
    · rw [← hout]
      show (compositeCombine rs "pass" []).1 = "fail" ↔ _
      rw [compositeCombine_status]
      constructor
      · rintro (h | ⟨r, hmem, hst⟩)
        · exact absurd h (by decide)
        · rcases (compositeRun_mem_iff subs e a rs hr r.1 r.2).mp hmem with ⟨s, hs, _, hv⟩
          exact ⟨s, hs, r.2, hv, hst⟩
      · rintro ⟨s, hs, o, hv, hst⟩
        exact Or.inr ⟨(s.className, o),
          (compositeRun_mem_iff subs e a rs hr s.className o).mpr ⟨s, hs, rfl, hv⟩, hst⟩
    · intro k
      rw [← hout]
      show k ∈ (compositeCombine rs "pass" []).2.map Prod.fst ↔ _
      rw [compositeCombine_keys]
      constructor
      · rintro (⟨r, hmem, hst, hk⟩ | h)
        · rcases (compositeRun_mem_iff subs e a rs hr r.1 r.2).mp hmem with ⟨s, hs, hn, hv⟩
          exact ⟨s, hs, r.2, hv, hst, hk ▸ hn⟩
        · simp at h
      · rintro ⟨s, hs, o, hv, hst, hk⟩
        exact Or.inl ⟨(s.className, o),
          (compositeRun_mem_iff subs e a rs hr s.className o).mpr ⟨s, hs, rfl, hv⟩, hst, hk⟩

/-- Scenario C frames: a numeric column that matches exactly and a text column
that differs in its only row. -/
def catE : DataFrame := ⟨1, [("n", ⟨.numeric, [.num 1]⟩), ("t", ⟨.object, [.str "a"]⟩)]⟩

/-- Actual side of scenario C. -/
def catA : DataFrame := ⟨1, [("n", ⟨.numeric, [.num 1]⟩), ("t", ⟨.object, [.str "b"]⟩)]⟩

/-- Composite outcome of scenario C: only the categorical sub-strategy's key. -/
def compositeScenOut : Outcome :=
  ⟨"fail", [("CategoricalValidation", .nested [("t", .valuePairs [(0, .str "a")]
    [(0, .str "b")])])]⟩

/-- Witness for C3 on scenario C: Numeric passes, Categorical fails, and the
difference keys are exactly the failing sub-strategy's class name. -/
theorem composite_runs_all_witness :
    Strategy.validate (.composite [.numeric 0, .categorical]) catE catA = .ok compositeScenOut ∧
      (∀ k, k ∈ compositeScenOut.differences.map Prod.fst ↔
        ∃ s ∈ ([.numeric 0, .categorical] : List Strategy), ∃ o,
          Strategy.validate s catE catA = .ok o ∧ o.status = "fail" ∧ s.className = k) :=
  ⟨rfl, (composite_runs_all [.numeric 0, .categorical] catE catA compositeScenOut (by rfl)).2.2⟩

/-- C9: constructing a PatternValidation with at least one pattern raises a
NameError, because the dict comprehension in its constructor references the
global `re`, which the strategies module never imports — so it can never
produce an outcome; the module likewise references the unimported name `List`
in the CompositeValidation constructor's signature. -/
theorem pattern_init_name_error (ps : List (String × String)) (h : ps ≠ []) :
    patternValidationInit ps = .error (.nameError "re") ∧
      "re" ∉ strategiesModuleNames ∧
      "List" ∈ compositeInitSignatureNames ∧ "List" ∉ strategiesModuleNames := by
  refine ⟨?_, by decide, by decide, by decide⟩
  cases ps with
  | nil => exact absurd rfl h
  | cons kv rest =>
    show (do
      let _ ← strategiesLookup "re"
      let others ← patternValidationInit rest
      pure (kv :: others) : Except PyErr (List (String × String))) = _
    rw [show strategiesLookup "re" = .error (.nameError "re") from rfl]
    rfl

/-- Witness for C9 at a one-entry patterns mapping. -/
theorem pattern_init_name_error_witness :
    ([("email", "^\\S+@\\S+$")] : List (String × String)) ≠ [] ∧
      patternValidationInit [("email", "^\\S+@\\S+$")] = .error (.nameError "re") :=
  ⟨by simp, (pattern_init_name_error [("email", "^\\S+@\\S+$")] (by simp)).1⟩

/-- C8 (code bug): when fetching either frame fails upstream, validate_query
is meant to raise `ValidationError("Validation failed: <cause>")`, but since
validator.py never imports ValidationError, the except clause itself raises
`NameError: name 'ValidationError' is not defined`.  No partial summary is
produced either way. -/
theorem validate_query_wrap_is_name_error :
    validate_query (.error (.exc "connection refused")) (.ok ⟨0, []⟩) (.numeric 0) =
      .error (.nameError "ValidationError") ∧
      "ValidationError" ∉ validatorModuleNames ∧
      (Except.error (.nameError "ValidationError") : Except PyErr Summary) ≠
        .error (.validationError "Validation failed: connection refused") :=
  ⟨rfl, by decide, by simp⟩

theorem contains_iff_mem (l : List Nat) (n : Nat) : (l.contains n = true) ↔ n ∈ l := by
  simp [List.contains_iff_exists_mem_beq, beq_iff_eq]

theorem lt_length_of_getElem? {α : Type} {l : List α} {i : Nat} {v : α}
    (h : l[i]? = some v) : i < l.length := by
  by_contra hc
  push_neg at hc
  rw [List.getElem?_eq_none hc] at h
  cases h

theorem zipmap_getElem {α β γ : Type} (f : α × β → γ) (l1 : List α) (l2 : List β) (i : Nat)
    (x : α) (y : β) (h1 : l1[i]? = some x) (h2 : l2[i]? = some y) :
    ((l1.zip l2).map f)[i]? = some (f (x, y)) := by
  have hz : (l1.zip l2)[i]? = some (x, y) := List.getElem?_zip_eq_some.mpr ⟨h1, h2⟩
  rw [List.getElem?_map, hz]
  rfl

theorem mem_of_getElem? {α : Type} {l : List α} {i : Nat} {v : α}
    (h : l[i]? = some v) : v ∈ l := by
  induction l generalizing i with
  | nil => cases h
  | cons hd tl ih =>
    cases i with
    | zero =>
      rw [List.getElem?_cons_zero] at h
      exact (Option.some.injEq _ _).mp h ▸ List.mem_cons_self _ _
    | succ j =>
      rw [List.getElem?_cons_succ] at h
      exact List.mem_cons_of_mem _ (ih h)

/-- C1: for the Numeric strategy, for every numeric column and every row where
both sides carry a numeric value, the row is absent from that column's
differences when the absolute difference is within the tolerance, and present
when it exceeds it. -/
theorem numeric_tolerance_rows (tol : ℚ) (_htol : 0 ≤ tol) (e a : DataFrame) (out : Outcome)
    (hok : Strategy.validate (.numeric tol) e a = .ok out)
    (hnd : e.colNames.Nodup)
    (c : String) (ecol acol : Column)
    (hec : (c, ecol) ∈ e.cols) (hdty : ecol.dtype = .numeric)
    (hac : a.find c = some acol)
    (i : Nat) (x y : ℚ)
    (hex : ecol.vals[i]? = some (.num x)) (hay : acol.vals[i]? = some (.num y)) :
    (|x - y| ≤ tol → out.rowReported c i = false) ∧
      (tol < |x - y| → out.rowReported c i = true) := by
  rw [validate_numeric] at hok
  simp only [numericValidate] at hok
  rw [except_bind_ok] at hok
  obtain ⟨diffs, hloop, hout⟩ := hok
  have hde : mkOutcome diffs = out := (Except.ok.injEq _ _).mp hout
  have hdiffs : out.differences = diffs := by rw [← hde]; rfl
  obtain ⟨r, hf0, hfind⟩ := columnLoop_find_mem _ e.cols [] diffs hloop hnd c ecol hec
  have hf : numericColumn tol c ecol acol = .ok r := by
    rw [hdty] at hf0
    rw [if_pos rfl] at hf0
    rw [hac] at hf0
    exact hf0
  simp only [numericColumn] at hf
  have hmi : ((ecol.vals.zip acol.vals).map fun p => numericRowMask tol p.1 p.2)[i]? =
      some (decide (tol < qabs (x - y))) :=
    zipmap_getElem _ _ _ i _ _ hex hay
  have hilen : i < ecol.vals.length := lt_length_of_getElem? hex
  by_cases hany : ((ecol.vals.zip acol.vals).map fun p => numericRowMask tol p.1 p.2).any id
      = true
  case pos =>
    rw [if_pos hany] at hf
    by_cases hlen : ecol.vals.length = acol.vals.length
    case neg =>
      rw [if_neg hlen] at hf
      cases hf
    case pos =>
      rw [if_pos hlen] at hf
      -- non-empty mask, equal lengths: the column is reported with the mask rows
      have hr : r = some (.valuePairs
        (maskSelect 0 ecol.vals ((ecol.vals.zip acol.vals).map fun p =>
          numericRowMask tol p.1 p.2))
        (maskSelect 0 acol.vals ((ecol.vals.zip acol.vals).map fun p =>
          numericRowMask tol p.1 p.2))) := ((Except.ok.injEq _ _).mp hf).symm
      subst hr
      have hfind2 : assocFind diffs c = some (.valuePairs
          (maskSelect 0 ecol.vals ((ecol.vals.zip acol.vals).map fun p =>
            numericRowMask tol p.1 p.2))
          (maskSelect 0 acol.vals ((ecol.vals.zip acol.vals).map fun p =>
            numericRowMask tol p.1 p.2))) := hfind.trans rfl
      constructor
      · intro hle
        have hqle : qabs (x - y) ≤ tol := by rwa [qabs_eq_abs]
        have hfalse : decide (tol < qabs (x - y)) = false := decide_eq_false (not_lt.mpr hqle)
        rw [hfalse] at hmi
        simp only [Outcome.rowReported, hdiffs, hfind2]
        rw [← Bool.not_eq_true, any_fst_eq, mem_maskSelect_zero]
        rintro ⟨h1, _⟩
        rw [hmi] at h1
        cases h1
      · intro hlt
        have hqlt : tol < qabs (x - y) := by rwa [← qabs_eq_abs] at hlt
        have htrue : decide (tol < qabs (x - y)) = true := decide_eq_true hqlt
        rw [htrue] at hmi
        simp only [Outcome.rowReported, hdiffs, hfind2]
        rw [any_fst_eq, mem_maskSelect_zero]
        exact ⟨hmi, hilen⟩
  case neg =>
    rw [if_neg hany] at hf
    -- empty mask: the column is not reported at all
    have hr : r = none := ((Except.ok.injEq _ _).mp hf).symm
    subst hr
    have hfindn : assocFind diffs c = none := hfind.trans rfl
    constructor
    · intro _
      simp only [Outcome.rowReported, hdiffs, hfindn]
    · intro hlt
      exfalso
      have hqlt : tol < qabs (x - y) := by rwa [← qabs_eq_abs] at hlt
      have htrue : decide (tol < qabs (x - y)) = true := decide_eq_true hqlt
      rw [htrue] at hmi
      exact hany (List.any_eq_true.mpr ⟨true, mem_of_getElem? hmi, rfl⟩)

/-- Witness for C1: at tolerance 1e-6 the difference 0.0005 on row 1 exceeds
the tolerance, so the theorem forces the row to be reported — and it is. -/
theorem numeric_tolerance_rows_witness :
    (0 : ℚ) ≤ 1/1000000 ∧ (1/1000000 : ℚ) < |(20 : ℚ) - 40001/2000| ∧
      scenarioBOut.rowReported "amt" 1 = true := by
  have habs : |(20 : ℚ) - 40001/2000| = 1/2000 := by
    rw [abs_sub_comm, abs_of_pos] <;> norm_num
  refine ⟨by norm_num, by rw [habs]; norm_num, ?_⟩
  exact (numeric_tolerance_rows (1/1000000) (by norm_num) amtExpected amtActual scenarioBOut
    (by rfl) (by simp [DataFrame.colNames, amtExpected])
    "amt" ⟨.numeric, [.num 10, .num 20]⟩ ⟨.numeric, [.num 10, .num (40001/2000)]⟩
    (by simp [amtExpected]) rfl (by rfl)
    1 20 (40001/2000) rfl rfl).2 (by rw [habs]; norm_num)

/-- C6: for the Null strategy, a row holding the empty string on one side and
a truly missing value on the other is classified alike (no mismatch) when
`treat_empty_as_null` is set, and counted as a mismatch when it is not. -/
theorem null_empty_vs_missing (flag : Bool) (e a : DataFrame) (out : Outcome)
    (hok : Strategy.validate (.nullStrategy flag) e a = .ok out)
    (hnd : e.colNames.Nodup)
    (c : String) (ecol acol : Column)
    (hec : (c, ecol) ∈ e.cols) (hac : a.find c = some acol)
    (i : Nat) (ve va : Value)
    (hev : ecol.vals[i]? = some ve) (hav : acol.vals[i]? = some va)
    (hpair : (ve = .str "" ∧ va = .null) ∨ (ve = .null ∧ va = .str "")) :
    (flag = true → out.rowReported c i = false) ∧
      (flag = false → out.rowReported c i = true) := by
  rw [validate_nullStrategy] at hok
  simp only [nullValidate] at hok
  rw [except_bind_ok] at hok
  obtain ⟨diffs, hloop, hout⟩ := hok
  have hde : mkOutcome diffs = out := (Except.ok.injEq _ _).mp hout
  have hdiffs : out.differences = diffs := by rw [← hde]; rfl
  obtain ⟨r, hf0, hfind⟩ := columnLoop_find_mem _ e.cols [] diffs hloop hnd c ecol hec
  have hf : nullColumn flag c ecol acol = .ok r := by
    rw [hac] at hf0
    exact hf0
  simp only [nullColumn] at hf
  have he' : (ecol.vals.map (nullLike flag))[i]? = some (nullLike flag ve) := by
    rw [List.getElem?_map, hev]
    rfl
  have ha' : (acol.vals.map (nullLike flag))[i]? = some (nullLike flag va) := by
    rw [List.getElem?_map, hav]
    rfl
  have hmi : (((ecol.vals.map (nullLike flag)).zip (acol.vals.map (nullLike flag))).map
      fun p => decide (p.1 ≠ p.2))[i]? =
      some (decide (nullLike flag ve ≠ nullLike flag va)) :=
    zipmap_getElem _ _ _ i _ _ he' ha'
  by_cases hlen : (ecol.vals.map (nullLike flag)).length = (acol.vals.map (nullLike flag)).length
  case neg =>
    rw [if_neg hlen] at hf
    cases hf
  case pos =>
    rw [if_pos hlen] at hf
    by_cases hany : (((ecol.vals.map (nullLike flag)).zip
        (acol.vals.map (nullLike flag))).map fun p => decide (p.1 ≠ p.2)).any id = true
    case pos =>
      rw [if_pos hany] at hf
      have hr : r = some (.nullReport
          (countTrue (((ecol.vals.map (nullLike flag)).zip
            (acol.vals.map (nullLike flag))).map fun p => decide (p.1 ≠ p.2)))
          (countTrue (ecol.vals.map (nullLike flag)))
          (countTrue (acol.vals.map (nullLike flag)))
          (trueIndices 0 (((ecol.vals.map (nullLike flag)).zip
            (acol.vals.map (nullLike flag))).map fun p => decide (p.1 ≠ p.2)))) :=
        ((Except.ok.injEq _ _).mp hf).symm
      subst hr
      have hfind2 := hfind.trans (rfl :
        (match (some (Diff.nullReport _ _ _ _) : Option Diff) with
          | some d => some d | none => assocFind [] c) = _)
      constructor
      · intro hflag
        subst hflag
        have hnl : decide (nullLike true ve ≠ nullLike true va) = false := by
          rcases hpair with ⟨h1, h2⟩ | ⟨h1, h2⟩ <;> subst h1 <;> subst h2 <;> decide
        rw [hnl] at hmi
        simp only [Outcome.rowReported, hdiffs, hfind2]
        rw [← Bool.not_eq_true, contains_iff_mem, mem_trueIndices_zero]
        intro hj
        rw [hmi] at hj
        cases hj
      · intro hflag
        subst hflag
        have hnl : decide (nullLike false ve ≠ nullLike false va) = true := by
          rcases hpair with ⟨h1, h2⟩ | ⟨h1, h2⟩ <;> subst h1 <;> subst h2 <;> decide
        rw [hnl] at hmi
        simp only [Outcome.rowReported, hdiffs, hfind2]
        rw [contains_iff_mem, mem_trueIndices_zero]
        exact hmi
    case neg =>
      rw [if_neg hany] at hf
      have hr : r = none := ((Except.ok.injEq _ _).mp hf).symm
      subst hr
      have hfindn : assocFind diffs c = none := hfind.trans rfl
      constructor
      · intro _
        simp only [Outcome.rowReported, hdiffs, hfindn]
      · intro hflag
        subst hflag
        exfalso
        have hnl : decide (nullLike false ve ≠ nullLike false va) = true := by
          rcases hpair with ⟨h1, h2⟩ | ⟨h1, h2⟩ <;> subst h1 <;> subst h2 <;> decide
        rw [hnl] at hmi
        exact hany (List.any_eq_true.mpr ⟨true, mem_of_getElem? hmi, rfl⟩)

/-- Null scenario frames: the empty string on the expected side against a true
missing value on the actual side. -/
def nullScenE : DataFrame := ⟨1, [("v", ⟨.object, [.str ""]⟩)]⟩

/-- Actual side of the null scenario. -/
def nullScenA : DataFrame := ⟨1, [("v", ⟨.object, [.null]⟩)]⟩

/-- Outcome of the null scenario with `treat_empty_as_null = false`. -/
def nullScenOut : Outcome := ⟨"fail", [("v", .nullReport 1 0 1 [0])]⟩

/-- Witness for C6: with the flag off, the empty-vs-missing row is a mismatch. -/
theorem null_empty_vs_missing_witness :
    Strategy.validate (.nullStrategy false) nullScenE nullScenA = .ok nullScenOut ∧
      nullScenOut.rowReported "v" 0 = true := by
  refine ⟨rfl, ?_⟩
  exact (null_empty_vs_missing false nullScenE nullScenA nullScenOut (by rfl)
    (by simp [DataFrame.colNames, nullScenE])
    "v" ⟨.object, [.str ""]⟩ ⟨.object, [.null]⟩
    (by simp [nullScenE]) (by rfl)
    0 (.str "") .null rfl rfl (Or.inl ⟨rfl, rfl⟩)).2 rfl

/-- DateTime scenario frames: two naive timestamps, the second 100 seconds
apart across the two sides. -/
def dtScenE : DataFrame := ⟨2, [("ts", ⟨.datetime none, [.dt 0, .dt 1000]⟩)]⟩

/-- Actual side of the datetime scenario. -/
def dtScenA : DataFrame := ⟨2, [("ts", ⟨.datetime none, [.dt 5, .dt 1100]⟩)]⟩

/-- C7 (code bug): the DateTime strategy computes its mismatch mask exactly as
the claim says — both offsets stripped when not `timezone_aware`, the absolute
elapsed difference compared against the allowance — but the moment any row
exceeds the allowance the source crashes while building the report:
strategies.py line 80 evaluates `time_diff[mask].total_seconds().to_dict()`,
and a Series has no `total_seconds` attribute (tz-aware branch) while
`TimedeltaIndex.total_seconds()` yields an Index with no `to_dict` (naive
branch).  A mismatching row can therefore never be reported: at the concrete
failing input (row 1 skew of 100 seconds against a 50 second allowance) the
call raises an AttributeError, while the same frames under a 500 second
allowance return a clean pass. -/
theorem datetime_mismatch_raises :
    Strategy.validate (.datetime false 50) dtScenE dtScenA =
      .error "AttributeError: Index object has no attribute to_dict on column ts" ∧
      Strategy.validate (.datetime false 500) dtScenE dtScenA = .ok ⟨"pass", []⟩ :=
  ⟨rfl, rfl⟩

theorem mem_of_assocFind_some {α : Type} {l : List (String × α)} {k : String} {v : α}
    (h : assocFind l k = some v) : (k, v) ∈ l := by
  induction l with
  | nil => cases h
  | cons p ps ih =>
    by_cases hp : p.1 = k
    · simp only [assocFind, hp, if_true, Option.some.injEq] at h
      rw [← hp, ← h]
      exact List.mem_cons_self _ _
    · simp only [assocFind, hp, if_false] at h
      exact List.mem_cons_of_mem _ (ih h)

theorem any_fst_eq_str {α : Type} (l : List (String × α)) (k : String) :
    ((l.any fun p => decide (p.1 = k)) = true) ↔ ∃ v, (k, v) ∈ l := by
  rw [List.any_eq_true]
  constructor
  · rintro ⟨p, hp, he⟩
    rw [decide_eq_true_eq] at he
    exact ⟨p.2, by rw [← he]; exact hp⟩
  · rintro ⟨v, hv⟩
    exact ⟨(k, v), hv, by simp⟩

theorem flagStat_some_iff (t ev av : ℚ) (v : ℚ × ℚ × ℚ) :
    (flagStat t (some ev) (some av) = some v ↔
      ev ≠ 0 ∧ t < qabs (ev - av) / ev * 100 ∧ v = (ev, av, qabs (ev - av) / ev * 100)) := by
  rw [show flagStat t (some ev) (some av) =
    (if ev ≠ 0 then
      (if t < qabs (ev - av) / ev * 100 then some (ev, av, qabs (ev - av) / ev * 100)
       else none)
     else none) from rfl]
  by_cases h0 : ev ≠ 0
  · rw [if_pos h0]
    by_cases ht : t < qabs (ev - av) / ev * 100
    · rw [if_pos ht]
      simp only [Option.some.injEq]
      constructor
      · intro h
        exact ⟨h0, ht, h.symm⟩
      · rintro ⟨_, _, h⟩
        exact h.symm
    · rw [if_neg ht]
      constructor
      · intro h
        cases h
      · rintro ⟨_, ht', _⟩
        exact absurd ht' ht
  · rw [if_neg h0]
    constructor
    · intro h
      cases h
    · rintro ⟨h0', _, _⟩
      exact absurd h0' h0

theorem mem_statDifferences (t : ℚ) (es as : List (String × Option ℚ)) (stat : String)
    (v : ℚ × ℚ × ℚ) (hnd : (es.map Prod.fst).Nodup) :
    ((stat, v) ∈ statDifferences t es as ↔
      ∃ ev av, assocFind es stat = some ev ∧ assocFind as stat = some av ∧
        flagStat t ev av = some v) := by
  rw [statDifferences, List.mem_filterMap]
  constructor
  · rintro ⟨p, hp, hg⟩
    cases hfa : assocFind as p.1 with
    | none =>
      rw [hfa, Option.none_bind] at hg
      cases hg
    | some av =>
      rw [hfa, Option.some_bind] at hg
      cases hfs : flagStat t p.2 av with
      | none =>
        rw [hfs, Option.map_none'] at hg
        cases hg
      | some r =>
        rw [hfs, Option.map_some'] at hg
        simp only [Option.some.injEq, Prod.mk.injEq] at hg
        obtain ⟨hk, hr⟩ := hg
        refine ⟨p.2, av, ?_, ?_, ?_⟩
        · exact assocFind_eq_of_mem_nodup hnd (by rw [← hk]; exact hp)
        · rw [← hk]; exact hfa
        · rw [hfs, hr]
  · rintro ⟨ev, av, h1, h2, h3⟩
    refine ⟨(stat, ev), mem_of_assocFind_some h1, ?_⟩
    rw [show (stat, ev).1 = stat from rfl, h2, Option.some_bind,
      show (stat, ev).2 = ev from rfl, h3, Option.map_some']

/-- Keys of the five-statistic dict, in order. -/
theorem columnStats_keys (c : Column) :
    (columnStats c).map Prod.fst = ["mean", "median", "std", "min", "max"] := rfl

/-- C5 as amended: in the Distribution strategy a statistic with zero expected
value is never flagged, and one with non-zero expected value is flagged
exactly when the signed quantity `|expected - actual| / expected * 100` — the
source divides by the signed expected value, not by its absolute value —
exceeds the threshold. -/
theorem distribution_flag_rule (t : ℚ) (e a : DataFrame) (out : Outcome)
    (hok : Strategy.validate (.distribution t) e a = .ok out)
    (hnd : e.colNames.Nodup)
    (c : String) (ecol acol : Column)
    (hec : (c, ecol) ∈ e.cols) (hedty : ecol.dtype = .numeric)
    (hac : a.find c = some acol) (hadty : acol.dtype = .numeric)
    (stat : String) (ev av : ℚ)
    (hstat : assocFind (columnStats ecol) stat = some (some ev))
    (hastat : assocFind (columnStats acol) stat = some (some av)) :
    (ev = 0 → out.statFlagged c stat = false) ∧
      (ev ≠ 0 → (out.statFlagged c stat = true ↔ t < qabs (ev - av) / ev * 100)) := by
  rw [validate_distribution] at hok
  simp only [distributionValidate] at hok
  rw [except_bind_ok] at hok
  obtain ⟨diffs, hloop, hout⟩ := hok
  have hde : mkOutcome diffs = out := (Except.ok.injEq _ _).mp hout
  have hdiffs : out.differences = diffs := by rw [← hde]; rfl
  obtain ⟨r, hf0, hfind⟩ := columnLoop_find_mem _ e.cols [] diffs hloop hnd c ecol hec
  have hf : (if (statDifferences t (columnStats ecol) (columnStats acol)).isEmpty
      then (Except.ok none : Except String (Option Diff))
      else .ok (some (.statReport (statDifferences t (columnStats ecol)
        (columnStats acol))))) = .ok r := by
    rw [hedty] at hf0
    rw [if_pos rfl] at hf0
    rw [hac] at hf0
    have hf1 : (if acol.dtype = DType.numeric then
        (if (statDifferences t (columnStats ecol) (columnStats acol)).isEmpty
         then (Except.ok none : Except String (Option Diff))
         else .ok (some (.statReport (statDifferences t (columnStats ecol)
           (columnStats acol)))))
        else .error ("TypeError: could not aggregate non-numeric column " ++ c)) =
        .ok r := hf0
    rw [hadty] at hf1
    rw [if_pos rfl] at hf1
    exact hf1
  have hndstats : ((columnStats ecol).map Prod.fst).Nodup := by
    rw [columnStats_keys]
    decide
  have hmem : ∀ v, ((stat, v) ∈ statDifferences t (columnStats ecol) (columnStats acol) ↔
      flagStat t (some ev) (some av) = some v) := by
    intro v
    rw [mem_statDifferences t _ _ stat v hndstats]
    constructor
    · rintro ⟨ev', av', h1, h2, h3⟩
      rw [hstat] at h1
      rw [hastat] at h2
      rw [← (Option.some.injEq _ _).mp h1, ← (Option.some.injEq _ _).mp h2] at h3
      exact h3
    · intro h3
      exact ⟨some ev, some av, hstat, hastat, h3⟩
  by_cases hemp : (statDifferences t (columnStats ecol) (columnStats acol)).isEmpty = true
  case pos =>
    rw [if_pos hemp] at hf
    have hr : r = none := ((Except.ok.injEq _ _).mp hf).symm
    subst hr
    have hfindn : assocFind diffs c = none := hfind.trans rfl
    have hflag : out.statFlagged c stat = false := by
      simp only [Outcome.statFlagged, hdiffs, hfindn]
    refine ⟨fun _ => hflag, fun h0 => ?_⟩
    rw [hflag]
    simp only [Bool.false_eq_true, false_iff]
    intro ht
    have : (stat, (ev, av, qabs (ev - av) / ev * 100)) ∈
        statDifferences t (columnStats ecol) (columnStats acol) :=
      (hmem _).mpr ((flagStat_some_iff t ev av _).mpr ⟨h0, ht, rfl⟩)
    rw [List.isEmpty_iff] at hemp
    rw [hemp] at this
    cases this
  case neg =>
    rw [if_neg hemp] at hf
    have hr : r = some (.statReport (statDifferences t (columnStats ecol)
        (columnStats acol))) := ((Except.ok.injEq _ _).mp hf).symm
    subst hr
    have hfind2 := hfind.trans (rfl :
      (match (some (Diff.statReport _) : Option Diff) with
        | some d => some d | none => assocFind [] c) = _)
    have hflag : out.statFlagged c stat = true ↔
        ∃ v, flagStat t (some ev) (some av) = some v := by
      simp only [Outcome.statFlagged, hdiffs, hfind2]
      rw [any_fst_eq_str]
      constructor
      · rintro ⟨v, hv⟩
        exact ⟨v, (hmem v).mp hv⟩
      · rintro ⟨v, hv⟩
        exact ⟨v, (hmem v).mpr hv⟩
    constructor
    · intro h0
      rw [← Bool.not_eq_true, hflag]
      rintro ⟨v, hv⟩
      rcases (flagStat_some_iff t ev av v).mp hv with ⟨h0', _, _⟩
      exact h0' h0
    · intro h0
      rw [hflag]
      constructor
      · rintro ⟨v, hv⟩
        exact ((flagStat_some_iff t ev av v).mp hv).2.1
      · intro ht
        exact ⟨_, (flagStat_some_iff t ev av _).mpr ⟨h0, ht, rfl⟩⟩

/-- Expected side of the negative-mean distribution scenario. -/
def negMeanE : DataFrame := ⟨2, [("x", ⟨.numeric, [.num (-10), .num (-10)]⟩)]⟩

/-- Actual side of the negative-mean distribution scenario. -/
def negMeanA : DataFrame := ⟨2, [("x", ⟨.numeric, [.num 100, .num 100]⟩)]⟩

/-- Counterexample to C5 as stated: with expected mean -10 (non-zero) and
actual mean 100, the relative percentage difference from the spec's wording —
`|expected - actual| / |expected| * 100` = 1100 — exceeds the threshold 5, yet
the Distribution strategy flags nothing at all: the source divides by the
signed expected value, so the comparison `-1100 > 5` fails. -/
theorem distribution_negative_mean_not_flagged :
    Strategy.validate (.distribution 5) negMeanE negMeanA = .ok ⟨"pass", []⟩ ∧
      statMean (colNumericVals ⟨.numeric, [.num (-10), .num (-10)]⟩) = some (-10) ∧
      statMean (colNumericVals ⟨.numeric, [.num 100, .num 100]⟩) = some 100 ∧
      (-10 : ℚ) ≠ 0 ∧ relPctDiff (-10) 100 > 5 :=
  ⟨rfl, by decide, by decide, by decide, by decide⟩

/-- Expected side of the positive-mean distribution scenario. -/
def posDistE : DataFrame := ⟨2, [("x", ⟨.numeric, [.num 10, .num 10]⟩)]⟩

/-- Actual side of the positive-mean distribution scenario. -/
def posDistA : DataFrame := ⟨2, [("x", ⟨.numeric, [.num 12, .num 12]⟩)]⟩

/-- Outcome of the positive-mean distribution scenario at threshold 5: every
non-zero statistic is off by 20 percent. -/
def posDistOut : Outcome :=
  ⟨"fail", [("x", .statReport [("mean", 10, 12, 20), ("median", 10, 12, 20),
    ("min", 10, 12, 20), ("max", 10, 12, 20)])]⟩

/-- Witness for the amended C5: expected mean 10, actual mean 12, threshold 5;
the signed percentage difference 20 exceeds 5 and the mean is flagged. -/
theorem distribution_flag_rule_witness :
    Strategy.validate (.distribution 5) posDistE posDistA = .ok posDistOut ∧
      posDistOut.statFlagged "x" "mean" = true := by
  refine ⟨rfl, ?_⟩
  exact ((distribution_flag_rule 5 posDistE posDistA posDistOut (by rfl)
    (by simp [DataFrame.colNames, posDistE])
    "x" ⟨.numeric, [.num 10, .num 10]⟩ ⟨.numeric, [.num 12, .num 12]⟩
    (by simp [posDistE]) rfl (by rfl) rfl
    "mean" 10 12 (by decide) (by decide)).2 (by decide)).mpr (by decide)

/-- A difference detail that is not a nested sub-dictionary; everything the
five column-wise strategies store is of this shape. -/
def Diff.plain : Diff → Prop
  | .valuePairs _ _ => True
  | .dtReport _ _ _ => True
  | .nullReport _ _ _ _ => True
  | .statReport _ => True
  | .patternReport _ _ => True
  | .nested _ => False

theorem diffEntryCols_plain (k : String) (d : Diff) (h : d.plain) :
    diffEntryCols (k, d) = [k] := by
  cases d with
  | valuePairs _ _ => simp [diffEntryCols]
  | dtReport _ _ _ => simp [diffEntryCols]
  | nullReport _ _ _ _ => simp [diffEntryCols]
  | statReport _ => simp [diffEntryCols]
  | patternReport _ _ => simp [diffEntryCols]
  | nested _ => exact absurd h (by simp [Diff.plain])

theorem mem_diffListCols : ∀ (l : List (String × Diff)) (c : String),
    (c ∈ diffListCols l ↔ ∃ p ∈ l, c ∈ diffEntryCols p) := by
  intro l
  induction l with
  | nil => intro c; simp [diffListCols]
  | cons p ps ih =>
    intro c
    simp only [diffListCols, List.mem_append, ih, List.mem_cons]
    constructor
    · rintro (h | ⟨q, hq, hcq⟩)
      · exact ⟨p, Or.inl rfl, h⟩
      · exact ⟨q, Or.inr hq, hcq⟩
    · rintro ⟨q, rfl | hq, hcq⟩
      · exact Or.inl hcq
      · exact Or.inr ⟨q, hq, hcq⟩

theorem numericColumn_plain (tol : ℚ) (name : String) (ecol acol : Column) (d : Diff)
    (h : numericColumn tol name ecol acol = .ok (some d)) : d.plain := by
  simp only [numericColumn] at h
  split_ifs at h
  all_goals cases h
  all_goals simp [Diff.plain]

theorem categoricalColumn_plain (name : String) (ecol acol : Column) (d : Diff)
    (h : categoricalColumn name ecol acol = .ok (some d)) : d.plain := by
  simp only [categoricalColumn] at h
  split_ifs at h
  all_goals cases h
  all_goals simp [Diff.plain]

theorem dtColumn_plain (tz : Bool) (allow : Int) (name : String) (eoff : Option Int)
    (ecol acol : Column) (d : Diff)
    (h : dtColumn tz allow name eoff ecol acol = .ok (some d)) : d.plain := by
  unfold dtColumn at h
  split at h
  · dsimp only at h
    split_ifs at h
    all_goals cases h
  · cases h

theorem nullColumn_plain (flag : Bool) (name : String) (ecol acol : Column) (d : Diff)
    (h : nullColumn flag name ecol acol = .ok (some d)) : d.plain := by
  simp only [nullColumn] at h
  split_ifs at h
  all_goals cases h
  all_goals simp [Diff.plain]

theorem patternColumn_plain (m : String → Bool) (name : String) (ecol acol : Column) (d : Diff)
    (h : patternColumn m name ecol acol = .ok (some d)) : d.plain := by
  simp only [patternColumn] at h
  split_ifs at h
  all_goals cases h
  all_goals simp [Diff.plain]

/-- Column-name containment for every strategy body of the "column loop plus
`mkOutcome`" shape: each reported column name is a column of the expected
frame. -/
theorem loopValidate_cols (f : String → Column → Except String (Option Diff))
    (hf : ∀ c col d, f c col = .ok (some d) → Diff.plain d)
    (e : DataFrame) (out : Outcome)
    (h : (do
      let diffs ← columnLoop f e.cols []
      Except.ok (mkOutcome diffs) : Except String Outcome) = .ok out) :
    ∀ c, c ∈ diffListCols out.differences → c ∈ e.colNames := by
  rw [except_bind_ok] at h
  obtain ⟨diffs, hloop, hout⟩ := h
  have hde : mkOutcome diffs = out := (Except.ok.injEq _ _).mp hout
  intro c hc
  rw [← hde, mkOutcome_differences] at hc
  rw [mem_diffListCols] at hc
  obtain ⟨p, hp, hcp⟩ := hc
  have hplain : Diff.plain p.2 :=
    columnLoop_values f Diff.plain hf e.cols [] diffs hloop (by simp) p hp
  have hent : diffEntryCols p = [p.1] := diffEntryCols_plain p.1 p.2 hplain
  rw [hent, List.mem_singleton] at hcp
  have hk : p.1 ∈ diffs.map Prod.fst := List.mem_map.mpr ⟨p, hp, rfl⟩
  rcases columnLoop_keys f e.cols [] diffs hloop p.1 hk with h' | h'
  · exact hcp ▸ h'
  · simp at h'

mutual

/-- Every column name appearing anywhere in an outcome's differences — nested
composite entries included — names a column of the expected frame. -/
theorem validate_cols (s : Strategy) (e a : DataFrame) (out : Outcome)
    (h : Strategy.validate s e a = .ok out) :
    ∀ c, c ∈ diffListCols out.differences → c ∈ e.colNames := by
  cases s with
  | numeric tol =>
    rw [validate_numeric] at h
    refine loopValidate_cols _ ?_ e out h
    intro c col d hcd
    try dsimp only at hcd
    split_ifs at hcd
    · split at hcd
      · cases hcd
      · exact numericColumn_plain tol c col _ d hcd
    · cases hcd
  | categorical =>
    rw [validate_categorical] at h
    refine loopValidate_cols _ ?_ e out h
    intro c col d hcd
    try dsimp only at hcd
    split_ifs at hcd
    · split at hcd
      · cases hcd
      · exact categoricalColumn_plain c col _ d hcd
    · cases hcd
  | datetime tz allow =>
    rw [validate_datetime] at h
    refine loopValidate_cols _ ?_ e out h
    intro c col d hcd
    try dsimp only at hcd
    split at hcd
    · split at hcd
      · cases hcd
      · exact dtColumn_plain tz allow c _ col _ d hcd
    · cases hcd
  | nullStrategy flag =>
    rw [validate_nullStrategy] at h
    refine loopValidate_cols _ ?_ e out h
    intro c col d hcd
    try dsimp only at hcd
    split at hcd
    · cases hcd
    · exact nullColumn_plain flag c col _ d hcd
  | distribution t =>
    rw [validate_distribution] at h
    refine loopValidate_cols _ ?_ e out h
    intro c col d hcd
    try dsimp only at hcd
    split_ifs at hcd
    · split at hcd
      · cases hcd
      · split_ifs at hcd
        all_goals cases hcd
        all_goals simp [Diff.plain]
    · cases hcd
  | pattern ps =>
    rw [validate_pattern] at h
    refine loopValidate_cols _ ?_ e out h
    intro c col d hcd
    try dsimp only at hcd
    split_ifs at hcd
    · split at hcd
      · cases hcd
      · split at hcd
        · cases hcd
        · exact patternColumn_plain _ c col _ d hcd
    · cases hcd
  | composite subs =>
    simp only [Strategy.validate] at h
    cases hr : compositeRun subs e a with
    | error msg => rw [hr] at h; cases h
    | ok rs =>
      rw [hr] at h
      have hout : (⟨(compositeCombine rs "pass" []).1,
          (compositeCombine rs "pass" []).2⟩ : Outcome) = out :=
        (Except.ok.injEq _ _).mp h
      intro c hc
      rw [← hout] at hc
      rw [mem_diffListCols] at hc
      obtain ⟨p, hp, hcp⟩ := hc
      rcases compositeCombine_values rs "pass" [] p hp with h' | ⟨r, hrm, rfl⟩
      · cases h'
      · rw [show diffEntryCols (r.1, Diff.nested r.2.differences) =
          diffListCols r.2.differences from by simp [diffEntryCols]] at hcp
        exact compositeRun_cols subs e a rs hr r hrm c hcp

/-- Auxiliary recursion for `validate_cols` over the sub-strategy list of a
composite. -/
theorem compositeRun_cols (subs : List Strategy) (e a : DataFrame)
    (rs : List (String × Outcome)) (h : compositeRun subs e a = .ok rs) :
    ∀ p ∈ rs, ∀ c, c ∈ diffListCols p.2.differences → c ∈ e.colNames := by
  cases subs with
  | nil =>
    simp only [compositeRun, Except.ok.injEq] at h
    intro p hp
    rw [← h] at hp
    cases hp
  | cons s rest =>
    simp only [compositeRun] at h
    cases hs : Strategy.validate s e a with
    | error msg => rw [hs] at h; cases h
    | ok o =>
      rw [hs] at h
      cases hrest : compositeRun rest e a with
      | error msg => rw [hrest] at h; cases h
      | ok os =>
        rw [hrest] at h
        have hrs : rs = (s.className, o) :: os := by cases h; rfl
        subst hrs
        intro p hp c hc
        rcases List.mem_cons.mp hp with rfl | hmem
        · exact validate_cols s e a o hs c hc
        · exact compositeRun_cols rest e a os hrest p hmem c hc

end

theorem commonColumns_sub (s t : DataFrame) :
    ∀ c ∈ commonColumns s t, c ∈ s.colNames ∧ c ∈ t.colNames := by
  intro c hc
  rw [commonColumns, List.mem_dedup, List.mem_filter] at hc
  exact ⟨hc.1, of_decide_eq_true hc.2⟩

theorem project_colNames_sub (df : DataFrame) (names : List String) :
    ∀ c ∈ (project df names).colNames, c ∈ names := by
  intro c hc
  simp only [project, DataFrame.colNames, List.mem_map] at hc
  obtain ⟨p, hp, hpc⟩ := hc
  rw [List.mem_filterMap] at hp
  obtain ⟨nm, hnm, hmap⟩ := hp
  cases hfind : df.find nm with
  | none => rw [hfind] at hmap; cases hmap
  | some col =>
    rw [hfind, Option.map_some'] at hmap
    have hp2 : (nm, col) = p := (Option.some.injEq _ _).mp hmap
    rw [← hpc, ← hp2]
    exact hnm

/-- C4: the orchestrator's projected comparison covers only columns present in
both frames, and every column name occurring anywhere in the returned
summary's details — nested composite reports included — is a column of both
input frames, so a column present in only one frame never appears in any
difference report. -/
theorem orchestrator_common_columns (sdf tdf : DataFrame) (strat : Strategy)
    (summary : Summary)
    (hok : validate_query (.ok sdf) (.ok tdf) strat = .ok summary) :
    ((∀ c ∈ (project sdf (commonColumns sdf tdf)).colNames,
        c ∈ sdf.colNames ∧ c ∈ tdf.colNames) ∧
      (∀ c ∈ (project tdf (commonColumns sdf tdf)).colNames,
        c ∈ sdf.colNames ∧ c ∈ tdf.colNames)) ∧
      (∀ c, c ∈ diffListCols summary.details → c ∈ sdf.colNames ∧ c ∈ tdf.colNames) := by
  refine ⟨⟨?_, ?_⟩, ?_⟩
  · intro c hc
    exact commonColumns_sub sdf tdf c (project_colNames_sub sdf _ c hc)
  · intro c hc
    exact commonColumns_sub sdf tdf c (project_colNames_sub tdf _ c hc)
  · have hok2 : (match (match Strategy.validate strat
        (project sdf (commonColumns sdf tdf)) (project tdf (commonColumns sdf tdf)) with
      | .error msg => (Except.error (PyErr.exc msg) : Except PyErr Summary)
      | .ok result =>
        Except.ok ⟨result.status,
          if result.status = "fail" then result.differences else [],
          (project sdf (commonColumns sdf tdf)).nrows,
          (project tdf (commonColumns sdf tdf)).nrows⟩) with
      | .ok r => Except.ok r
      | .error err => Except.error (wrapValidationError err)) = .ok summary := hok
    cases hres : Strategy.validate strat (project sdf (commonColumns sdf tdf))
        (project tdf (commonColumns sdf tdf)) with
    | error msg =>
      rw [hres] at hok2
      have : Except.error (wrapValidationError (PyErr.exc msg)) = Except.ok summary := hok2
      cases this
    | ok result =>
      rw [hres] at hok2
      have hsum : Except.ok (⟨result.status,
          if result.status = "fail" then result.differences else [],
          (project sdf (commonColumns sdf tdf)).nrows,
          (project tdf (commonColumns sdf tdf)).nrows⟩ : Summary) = Except.ok summary := hok2
      have hsum2 := (Except.ok.injEq _ _).mp hsum
      intro c hc
      rw [← hsum2] at hc
      by_cases hst : result.status = "fail"
      · rw [show (⟨result.status,
            if result.status = "fail" then result.differences else [],
            (project sdf (commonColumns sdf tdf)).nrows,
            (project tdf (commonColumns sdf tdf)).nrows⟩ : Summary).details =
            (if result.status = "fail" then result.differences else []) from rfl,
          if_pos hst] at hc
        have hin := validate_cols strat _ _ result hres c hc
        exact commonColumns_sub sdf tdf c (project_colNames_sub sdf _ c hin)
      · rw [show (⟨result.status,
            if result.status = "fail" then result.differences else [],
            (project sdf (commonColumns sdf tdf)).nrows,
            (project tdf (commonColumns sdf tdf)).nrows⟩ : Summary).details =
            (if result.status = "fail" then result.differences else []) from rfl,
          if_neg hst] at hc
        rw [show diffListCols [] = [] from by simp [diffListCols]] at hc
        cases hc

/-- Source frame of the orchestrator scenario: columns `a` and `b`. -/
def orchE : DataFrame := ⟨1, [("a", ⟨.numeric, [.num 1]⟩), ("b", ⟨.numeric, [.num 5]⟩)]⟩

/-- Target frame of the orchestrator scenario: columns `b` and `c`. -/
def orchT : DataFrame := ⟨1, [("b", ⟨.numeric, [.num 7]⟩), ("c", ⟨.object, [.str "z"]⟩)]⟩

/-- Summary of the orchestrator scenario: only the shared column `b` is
compared and reported; `a` and `c` are silently dropped. -/
def orchSummary : Summary :=
  ⟨"fail", [("b", .valuePairs [(0, .num 5)] [(0, .num 7)])], 1, 1⟩

/-- Witness for C4: the orchestrator run drops the one-sided columns `a` and
`c`, and the reported column `b` belongs to both frames. -/
theorem orchestrator_common_columns_witness :
    validate_query (.ok orchE) (.ok orchT) (.numeric 0) = .ok orchSummary ∧
      "b" ∈ diffListCols orchSummary.details ∧
      "b" ∈ orchE.colNames ∧ "b" ∈ orchT.colNames := by
  have hb : "b" ∈ diffListCols orchSummary.details := by
    simp [diffListCols, diffEntryCols, orchSummary]
  refine ⟨rfl, hb, ?_⟩
  exact (orchestrator_common_columns orchE orchT (.numeric 0) orchSummary (by rfl)).2 "b" hb

end DataValidation
